import Mathlib

/-!
IntegralImage: a shallow embedding of the library and of the batch runner.

The development follows `src/lib/IntegralImgComputer.cpp` (pixel getters,
`printChannel`, `go_impl`, `IntegralImage::go`), `src/runner/aux.cpp`
(`convertToUInt`, `Worker`, `parseArgs`, `doAllWork`) and `src/runner/runner.cpp`
(`main`).

Modelling conventions.

* A `cv::Mat` plane is its `rows`, `cols` and `type()` fields (C++ `int`, hence
  `Int`) and a read function giving the numeric value stored at `(row, col)`.
* Pixel values are integers.  `cv::imread(_, IMREAD_COLOR)` always yields 8-bit
  unsigned data, and the five integer encodings convert to `double` without
  loss.  Every integer of magnitude at most `2^53` is a `double`, and the sum
  of two such `double`s is their exact sum when that sum is again at most
  `2^53`.  The `double` variables of `printChannel` are therefore integers in
  the model, and the model is the code on the planes whose cells hold integers
  and whose magnitudes add up to at most `2^53`.  Beyond that bound `double`
  addition rounds, and a cell of the two floating-point encodings may hold a
  fraction, an infinity or a NaN: such runs are not described by the model, and
  the theorems on emitted values are stated within the bound.  An
  integer-valued `double` printed with `std::fixed << std::setprecision(1)` is
  its decimal text followed by `.0`.
* `std::vector<double>` is a `List Int`.  `operator[]` outside the bounds of
  the vector is undefined behaviour in C++; the model gives such a run the
  distinguished outcome `Run.undefinedBehaviour` instead of inventing a value.
* `std::ofstream` is the text written to it so far.
* A `for (k = 0; k != n; ++k)` loop is a structural recursion on the number of
  iterations still to run, carrying the loop variable beside it.
* The library functions the runner calls are given by their documented
  behaviour: GNU `getopt` for the option string `-i:t:`, and the extraction of
  an `int` from a `std::istringstream`.
* Threads are not executed: a `Worker` is the range of paths it walks over, and
  whether a `std::thread` construction or a `join` throws is read from the
  environment `Threads`.  A `join` that throws leaves its `std::thread`
  joinable (the standard library resets the thread only after a successful
  join), and the destructor of a joinable `std::thread` calls
  `std::terminate`.
-/

/-! ## Exceptions and outcomes -/

/-- Exceptions of the program, by dynamic class, with their `what()` text. -/
inductive Exc where
  | UnknownTypeError (what : String)
  | ChannelPrintError (what : String)
  | runtime_error (what : String)
  deriving DecidableEq, Repr

/-- The `what()` text of an exception. -/
def Exc.what : Exc → String
  | .UnknownTypeError w => w
  | .ChannelPrintError w => w
  | .runtime_error w => w

/-- Outcome of a function writing to an output stream: normal return with the
stream text, an exception together with the stream text at the moment it was
thrown, or undefined behaviour. -/
inductive Run where
  | returned (ofs : String)
  | threw (e : Exc) (ofs : String)
  | undefinedBehaviour
  deriving DecidableEq, Repr

/-! ## Planes and pixel getters -/

/-- A single-channel `cv::Mat` whose cells hold integers: header fields and
element read `at(row, col)`. -/
structure Mat where
  rows : Int
  cols : Int
  type : Int
  cell : Nat → Nat → Int

/-- OpenCV depth codes (`opencv2/core/hal/interface.h`); for a one-channel
matrix `type()` is the depth code itself. -/
def CV_8U : Int := 0
/-- Depth code of signed 8-bit data. -/
def CV_8S : Int := 1
/-- Depth code of unsigned 16-bit data. -/
def CV_16U : Int := 2
/-- Depth code of signed 16-bit data. -/
def CV_16S : Int := 3
/-- Depth code of signed 32-bit data. -/
def CV_32S : Int := 4
/-- Depth code of 32-bit floating point data. -/
def CV_32F : Int := 5
/-- Depth code of 64-bit floating point data. -/
def CV_64F : Int := 6

namespace ElemGetter

/-- The function-pointer type `double (*)(const cv::Mat &, int, int)`. -/
abbrev DoubleGetter := Mat → Nat → Nat → Int

/-- Reads `mat.at<uchar>(row, col)`. -/
def getUChar : DoubleGetter := fun mat row col => mat.cell row col
/-- Reads `mat.at<schar>(row, col)`. -/
def getSChar : DoubleGetter := fun mat row col => mat.cell row col
/-- Reads `mat.at<ushort>(row, col)`. -/
def getUShort : DoubleGetter := fun mat row col => mat.cell row col
/-- Reads `mat.at<short>(row, col)`. -/
def getShort : DoubleGetter := fun mat row col => mat.cell row col
/-- Reads `mat.at<int>(row, col)`. -/
def getInt : DoubleGetter := fun mat row col => mat.cell row col
/-- Reads `mat.at<float>(row, col)`. -/
def getFloat : DoubleGetter := fun mat row col => mat.cell row col
/-- Reads `mat.at<double>(row, col)`. -/
def getDouble : DoubleGetter := fun mat row col => mat.cell row col

/-- The `switch (mat.type())` of `chooseGetter`; the default branch throws
`UnknownTypeError(std::to_string(mat.type()))`. -/
def chooseGetter (mat : Mat) : Except Exc DoubleGetter :=
  if mat.type = CV_8U then .ok getUChar
  else if mat.type = CV_8S then .ok getSChar
  else if mat.type = CV_16U then .ok getUShort
  else if mat.type = CV_16S then .ok getShort
  else if mat.type = CV_32S then .ok getInt
  else if mat.type = CV_32F then .ok getFloat
  else if mat.type = CV_64F then .ok getDouble
  else .error (.UnknownTypeError (toString mat.type))

end ElemGetter

/-! ## printChannel -/

/-- Text of `ofs << currVal` under `std::fixed << std::setprecision(1)` for a
`double` that holds an integer: its decimal digits followed by `.0`.  The
values `printChannel` prints are sums of magnitudes, hence not negative. -/
def fixed1 (x : Int) : String := toString x ++ ".0"

/-- Variables live across the iterations of the inner loop of `printChannel`. -/
structure ScanState where
  ofs : String
  prevRow : List Int
  rowSum : Int
  deriving DecidableEq, Repr

/-- Inner loop `for (cols_i = 0; cols_i != matCols; ++cols_i)` of
`printChannel`, with `n` iterations still to run.  `none` is an access to
`prevRow` outside its bounds.  `currMatElem`, `currVal` and `rowSum` are
`double` in the source and integers here: the two agree as long as the cells
hold integers and the sums stay within `2^53`. -/
def colLoop (getter : ElemGetter.DoubleGetter) (mat : Mat) (matCols rows_i : Nat) :
    Nat → Nat → ScanState → Option ScanState
  | 0, _, s => some s
  | n + 1, cols_i, s =>
    match s.prevRow[cols_i]? with
    | none => none
    | some prev =>
      let currMatElem : Int := |getter mat rows_i cols_i|
      let currVal : Int := prev + s.rowSum + currMatElem
      let ofs1 := s.ofs ++ fixed1 currVal
      let ofs2 := if cols_i ≠ matCols - 1 then ofs1 ++ " " else ofs1
      colLoop getter mat matCols rows_i n (cols_i + 1)
        { ofs := ofs2, prevRow := s.prevRow.set cols_i currVal, rowSum := s.rowSum + currMatElem }

/-- Outer loop `for (rows_i = 0; rows_i != matRows; ++rows_i)` of
`printChannel`, with `n` iterations still to run; the state is the stream and
`prevRow`. -/
def rowLoop (getter : ElemGetter.DoubleGetter) (mat : Mat) (matRows matCols : Nat) :
    Nat → Nat → String × List Int → Option (String × List Int)
  | 0, _, s => some s
  | n + 1, rows_i, (ofs, prevRow) =>
    match colLoop getter mat matCols rows_i matCols 0
        { ofs := ofs, prevRow := prevRow, rowSum := 0 } with
    | none => none
    | some s =>
      let ofs1 := if rows_i ≠ matRows - 1 then s.ofs ++ "\n" else s.ofs
      rowLoop getter mat matRows matCols n (rows_i + 1) (ofs1, s.prevRow)

/-- The function `printChannel(mat, ofs)`.  In the loop bodies `matCols - 1` and
`matRows - 1` are evaluated only when the bound is at least one, where the
`size_t` subtraction and the subtraction on `Nat` agree. -/
def printChannel (mat : Mat) (ofs : String) : Run :=
  if mat.rows < 0 ∨ mat.cols < 0 then
    .threw (.ChannelPrintError "Row/col count is wrong. Sorry.") ofs
  else
    match ElemGetter.chooseGetter mat with
    | .error e =>
      .threw (.ChannelPrintError ("Can't work with cv::Mat of type " ++ e.what ++ ". Sorry.")) ofs
    | .ok getter =>
      let matRows : Nat := mat.rows.toNat
      let matCols : Nat := mat.cols.toNat
      let prevRow : List Int := List.replicate matRows 0
      match rowLoop getter mat matRows matCols matRows 0 (ofs, prevRow) with
      | none => .undefinedBehaviour
      | some (ofs1, _) => .returned ofs1

/-- A constant plane of the given size and type. -/
def constPlane (rows cols type v : Int) : Mat :=
  { rows := rows, cols := cols, type := type, cell := fun _ _ => v }

/-! ## go_impl and IntegralImage::go -/

/-- The result of `cv::imread(path, cv::IMREAD_COLOR)` as far as `go_impl`
looks at it, together with the planes `cv::split` fills in. -/
structure Image where
  dataNull : Bool
  channels : Int
  split : Nat → Mat

/-- The collaborators of `go_impl`: the decoder, whether opening an output path
fails (`ofs.fail()` in `prepareOutputFile`), and whether the stream is found in
a failed state (`!ofstream`) at the check that follows channel `k`. -/
structure World where
  imread : String → Image
  openFails : String → Bool
  streamFails : String → Nat → Bool

/-- The loop `for (currChanNum = 0; currChanNum != imageChanCount; ++currChanNum)`
of `go_impl`, with `n` iterations still to run.  The text carried along is what
has been handed to the output stream. -/
def chanLoop (w : World) (outFilePath : String) (channels : Nat → Mat) (imageChanCount : Nat) :
    Nat → Nat → String → Run
  | 0, _, ofstream => .returned ofstream
  | n + 1, currChanNum, ofstream =>
    match printChannel (channels currChanNum) ofstream with
    | .undefinedBehaviour => .undefinedBehaviour
    | .threw (.ChannelPrintError what) ofs1 =>
      .threw (.runtime_error ("Channel printing error occured. Channel N"
        ++ toString currChanNum ++ ", message: " ++ what)) ofs1
    | .threw e ofs1 => .threw e ofs1
    | .returned ofs1 =>
      let ofs2 := if currChanNum ≠ imageChanCount - 1 then ofs1 ++ "\n\n" else ofs1
      if w.streamFails outFilePath currChanNum then
        .threw (.runtime_error "An error occured while writing integral image.") ofs2
      else
        chanLoop w outFilePath channels imageChanCount n (currChanNum + 1) ofs2

/-- The function `go_impl(inFilePath, outFilePath)`.  The text of the result is
the content written to the output file (empty while the file is not open). -/
def go_impl (w : World) (inFilePath outFilePath : String) : Run :=
  let image := w.imread inFilePath
  if image.dataNull then
    .threw (.runtime_error "Couldn't open file") ""
  else if image.channels < 0 then
    .threw (.runtime_error "Channels count is wrong. Sorry.") ""
  else
    let imageChanCount : Nat := image.channels.toNat
    if w.openFails outFilePath then
      .threw (.runtime_error ("Couldn't open output file " ++ outFilePath)) ""
    else
      chanLoop w outFilePath image.split imageChanCount imageChanCount 0 ""

/-- The exported `IntegralImage::go`.  Every exception raised inside `go_impl`
derives from `std::exception`, so it is the first handler that rewraps it. -/
def IntegralImage.go (w : World) (inFilePath outFilePath : String) : Run :=
  match go_impl w inFilePath outFilePath with
  | .threw e ofs =>
    .threw (.runtime_error ("Exception occured with input file " ++ inFilePath
      ++ " with message " ++ e.what)) ofs
  | r => r

/-! ## The batch scheduler -/

/-- A `Worker(beg, end)`; the iterators are positions in the file list. -/
structure Worker where
  m_beg : Nat
  m_end : Nat
  deriving DecidableEq, Repr

/-- The paths `Worker::operator()` walks over, from `m_beg` up to `m_end`. -/
def Worker.paths (wk : Worker) (files : List String) : List String :=
  (files.drop wk.m_beg).take (wk.m_end - wk.m_beg)

/-- The threading environment of `doAllWork`: the hardware concurrency hint,
whether constructing the `thrNum`-th `std::thread` throws, and whether joining
the `k`-th thread of the pool throws. -/
structure Threads where
  hardwareHint : Nat
  launchFails : Nat → Bool
  joinFails : Nat → Bool

/-- What a call of `doAllWork` did: the workers handed to the threads of
`thrPool` in launch order, the worker run on the calling thread, the number of
`join` calls attempted, and whether the statement
`throw std::runtime_error(...)` that closes the function is reached, that is the
value of `errorOccured` after the joining loop.  Whether that exception reaches
the caller is told by `doAllWorkEnding`. -/
structure WorkLog where
  launched : List Worker
  inline : Worker
  joins : Nat
  raised : Bool
  deriving DecidableEq, Repr

/-- The launching loop `for (thrNum = 0; thrNum != thrCount - 1; ++thrNum)` with
`n` iterations still to run.  A throwing `std::thread` constructor leaves the
loop through the `catch (...)` that sets `errorOccured`; the result is
`begOfCurrPart`, `thrPool` and `errorOccured`. -/
def launchLoop (t : Threads) (step : Nat) :
    Nat → Nat → Nat → List Worker → Nat × List Worker × Bool
  | 0, _, begOfCurrPart, thrPool => (begOfCurrPart, thrPool, false)
  | n + 1, thrNum, begOfCurrPart, thrPool =>
    if t.launchFails thrNum then (begOfCurrPart, thrPool, true)
    else
      launchLoop t step n (thrNum + 1) (begOfCurrPart + step)
        (thrPool ++ [{ m_beg := begOfCurrPart, m_end := begOfCurrPart + step }])

/-- The joining loop over `thrPool`: `join` is called on every thread, a
throwing `join` sets `errorOccured` and the loop goes on. -/
def joinLoop (t : Threads) : Nat → Nat → Bool → Bool
  | 0, _, errorOccured => errorOccured
  | n + 1, k, errorOccured => joinLoop t n (k + 1) (errorOccured || t.joinFails k)

/-- The function `doAllWork(parseResult)`.  The number of files is bounded by
`argc`, an `int`, so its conversion to `ThreadCount` in `std::min` keeps it. -/
def doAllWork (t : Threads) (parseResult : List String × Nat) : WorkLog :=
  let elemCount := parseResult.1.length
  if parseResult.2 = 1 ∨ (parseResult.2 = 0 ∧ t.hardwareHint < 2) ∨ elemCount < 2 then
    { launched := [], inline := { m_beg := 0, m_end := elemCount }, joins := 0, raised := false }
  else
    let thrCount := min (if parseResult.2 > 1 then parseResult.2 else t.hardwareHint) elemCount
    let step := elemCount / thrCount
    let (begOfCurrPart, thrPool, errorOccured) := launchLoop t step (thrCount - 1) 0 0 []
    { launched := thrPool,
      inline := { m_beg := begOfCurrPart, m_end := elemCount },
      joins := thrPool.length,
      raised := joinLoop t thrPool.length 0 errorOccured }

/-- The slices of a run in slice order: the launched ones, then the one run on
the calling thread. -/
def WorkLog.slices (log : WorkLog) : List Worker :=
  log.launched ++ [log.inline]

/-- How a call of `doAllWork` ends: it returns, an exception reaches its caller,
or `std::terminate` ends the process. -/
inductive Ending where
  | returned
  | threw (e : Exc)
  | terminated
  deriving DecidableEq, Repr

/-- The way a call `doAllWork(parseResult)` ends.  `thrPool` is a local
`std::vector<std::thread>` and is destroyed when the function is left.  A `join`
that throws leaves its `std::thread` joinable, and the destructor of a joinable
`std::thread` calls `std::terminate`.  A throwing `join` has set `errorOccured`,
so the pool is destroyed while the `std::runtime_error` of the last statement
leaves the function: the exception reaches the caller only when no `join`
threw.  `joinLoop t n 0 false` tells whether one of the `n` joins threw. -/
def doAllWorkEnding (t : Threads) (parseResult : List String × Nat) : Ending :=
  let log := doAllWork t parseResult
  if log.raised then
    if joinLoop t log.joins 0 false then .terminated
    else .threw (.runtime_error "An error occured during working.")
  else .returned

/-! ## Specification-side definitions

The definitions of this section are not translations of code: they state what
the specification names (the integral image `I(i, j)`, the layout of its text,
the closed set of encodings, the shape of the slices), for the code to be
compared with. -/

/-- Sum of the magnitudes of the first `i` rows, restricted to columns `0..j`:
`∑ i' < i, ∑ j' ≤ j, |raw(i', j')|`. -/
def sumAbove (mat : Mat) (i j : Nat) : Int :=
  ∑ i' in Finset.range i, ∑ j' in Finset.range (j + 1), |mat.cell i' j'|

/-- The specified value `I(i, j) = ∑ i' ≤ i, ∑ j' ≤ j, |raw(i', j')|`. -/
def integral (mat : Mat) (i j : Nat) : Int :=
  ∑ i' in Finset.range (i + 1), ∑ j' in Finset.range (j + 1), |mat.cell i' j'|

/-- Sum of the magnitudes of row `i` in the columns before `k`. -/
def rowAbs (mat : Mat) (i k : Nat) : Int :=
  ∑ j' in Finset.range k, |mat.cell i j'|

/-- Text of one row of values: one-decimal values separated by one space. -/
def rowText (vals : List Int) : String :=
  " ".intercalate (vals.map fixed1)

/-- Text of a grid of values: rows separated by one newline. -/
def gridText (grid : List (List Int)) : String :=
  "\n".intercalate (grid.map rowText)

/-- The `R × C` grid of specified values of a plane. -/
def integralGrid (mat : Mat) (R C : Nat) : List (List Int) :=
  (List.range R).map fun i => (List.range C).map fun j => integral mat i j

/-- The seven encodings `chooseGetter` has a case for. -/
def supportedType (t : Int) : Prop :=
  t = CV_8U ∨ t = CV_8S ∨ t = CV_16U ∨ t = CV_16S ∨ t = CV_32S ∨ t = CV_32F ∨ t = CV_64F

instance (t : Int) : Decidable (supportedType t) := by
  unfold supportedType; infer_instance

/-- The grid the constant-plane property names: `v * (i + 1) * (j + 1)`. -/
def constGrid (v : Int) (R C : Nat) : List (List Int) :=
  (List.range R).map fun (i : Nat) =>
    (List.range C).map fun (j : Nat) => v * ((i : Int) + 1) * ((j : Int) + 1)

/-- The text `t` occurs in the text `s`, as a run of consecutive characters. -/
def Contains (s t : String) : Prop :=
  t.data <:+: s.data

instance (s t : String) : Decidable (Contains s t) := by
  unfold Contains; infer_instance

/-- The launched slices when `m` launches succeeded: slice `k` is
`[beg + k * step, beg + (k + 1) * step)`. -/
def stepSlices (beg step m : Nat) : List Worker :=
  (List.range m).map fun k => { m_beg := beg + k * step, m_end := beg + (k + 1) * step }

/-! ## Sample inputs -/

/-- A world whose decoder yields three 2 x 2 channels holding 1, 2 and 3. -/
def sampleWorld : World :=
  { imread := fun _ =>
      { dataNull := false, channels := 3, split := fun c => constPlane 2 2 CV_8U (c + 1) },
    openFails := fun _ => false,
    streamFails := fun _ _ => false }

/-- A world whose decoder yields two channels, the second of the unknown type 7. -/
def badTypeWorld : World :=
  { imread := fun _ =>
      { dataNull := false, channels := 2,
        split := fun c => constPlane 1 1 (if c = 0 then CV_8U else 7) 9 },
    openFails := fun _ => false,
    streamFails := fun _ _ => false }

/-- A host with four hardware threads on which every launch and join succeeds. -/
def sampleThreads : Threads :=
  { hardwareHint := 4, launchFails := fun _ => false, joinFails := fun _ => false }

/-- A list of ten input paths. -/
def sampleFiles : List String :=
  ["0.jpg", "1.jpg", "2.jpg", "3.jpg", "4.jpg", "5.jpg", "6.jpg", "7.jpg", "8.jpg", "9.jpg"]

/-! ## The thread operations of doAllWork, in order

`doAllWork` above records the outcome of a call; the definitions of this
section list the operations on threads the same code performs, one event per
`std::thread` construction, per `Worker` run on the calling thread, per `join`
and for the execution of the final `throw` statement (`raisedError`; what
becomes of the exception is told by `doAllWorkEnding`). -/

/-- One operation of `doAllWork` on a thread. -/
inductive ThreadEvent where
  | launched (thrNum : Nat) (wk : Worker)
  | launchFailed (thrNum : Nat)
  | ranInline (wk : Worker)
  | joined (k : Nat)
  | joinFailed (k : Nat)
  | raisedError
  deriving DecidableEq, Repr

/-- The events of the launching loop, with `n` iterations still to run: each
iteration constructs one `std::thread`; a throwing constructor ends the loop. -/
def launchTrace (t : Threads) (step : Nat) : Nat → Nat → Nat → List ThreadEvent
  | 0, _, _ => []
  | n + 1, thrNum, begOfCurrPart =>
    if t.launchFails thrNum then [.launchFailed thrNum]
    else
      .launched thrNum { m_beg := begOfCurrPart, m_end := begOfCurrPart + step }
        :: launchTrace t step n (thrNum + 1) (begOfCurrPart + step)

/-- The events of the joining loop, with `n` iterations still to run: each
iteration calls `join` on one thread of the pool, whether or not it throws. -/
def joinTrace (t : Threads) : Nat → Nat → List ThreadEvent
  | 0, _ => []
  | n + 1, k => (if t.joinFails k then .joinFailed k else .joined k) :: joinTrace t n (k + 1)

/-- The operations of a call `doAllWork(parseResult)`, in program order. -/
def doAllWorkTrace (t : Threads) (parseResult : List String × Nat) : List ThreadEvent :=
  let elemCount := parseResult.1.length
  if parseResult.2 = 1 ∨ (parseResult.2 = 0 ∧ t.hardwareHint < 2) ∨ elemCount < 2 then
    [.ranInline { m_beg := 0, m_end := elemCount }]
  else
    let thrCount := min (if parseResult.2 > 1 then parseResult.2 else t.hardwareHint) elemCount
    let step := elemCount / thrCount
    let (begOfCurrPart, thrPool, errorOccured) := launchLoop t step (thrCount - 1) 0 0 []
    launchTrace t step (thrCount - 1) 0 0
      ++ [.ranInline { m_beg := begOfCurrPart, m_end := elemCount }]
      ++ joinTrace t thrPool.length 0
      ++ (if joinLoop t thrPool.length 0 errorOccured then [.raisedError] else [])

/-- A host with four hardware threads on which the first launch fails. -/
def firstLaunchFails : Threads :=
  { hardwareHint := 4, launchFails := fun k => k == 0, joinFails := fun _ => false }

/-- A host with four hardware threads on which the join of thread 0 fails. -/
def firstJoinFails : Threads :=
  { hardwareHint := 4, launchFails := fun _ => false, joinFails := fun k => k == 0 }

/-! ## Worker::operator() and the work of a whole call -/

/-- What one call `IntegralImage::go(in, out)` does, as seen by its caller: it
returns, throws an exception derived from `std::exception` (with the text of
`typeid(e).name()` and of `e.what()`), throws any other object, or has
undefined behaviour. -/
inductive GoOutcome where
  | returned
  | threwStd (typeName what : String)
  | threwOther
  | undefinedBehaviour
  deriving DecidableEq, Repr

/-- The surroundings of a `Worker`: what `IntegralImage::go` does on a pair of
paths, and whether building the diagnostic for a path throws (the case the
inner `try` of the two printing functions is there for). -/
structure Calls where
  go : String → String → GoOutcome
  formatFails : String → Bool

/-- What a `Worker` did: its calls of `IntegralImage::go` (input path, output
path) and the messages it wrote to `std::cerr`, both in order. -/
structure WorkerLog where
  calls : List (String × String)
  cerr : List String
  deriving DecidableEq, Repr

/-- The message `Worker::printStdExcErrMsg` writes to `std::cerr`. -/
def Worker.printStdExcErrMsg (c : Calls) (typeName what currFile : String) : String :=
  if c.formatFails currFile then "std::exception occured while processing an image.\n"
  else "Error occured during computing file " ++ currFile ++ ". Type of exception is "
    ++ typeName ++ ", message " ++ what ++ "\n"

/-- The message `Worker::printUnkExcErrMsg` writes to `std::cerr`. -/
def Worker.printUnkExcErrMsg (c : Calls) (currFile : String) : String :=
  if c.formatFails currFile then "Unknown exception occured while processing an image.\n"
  else "Unknown error occured during computing file " ++ currFile ++ "\n"

/-- The loop `for (currFileIt = m_beg; currFileIt != m_end; ++currFileIt)` of
`Worker::operator()` over the paths still to visit.  `none` is undefined
behaviour inside a call of `IntegralImage::go`. -/
def Worker.loop (c : Calls) : List String → WorkerLog → Option WorkerLog
  | [], log => some log
  | currFile :: rest, log =>
    let called : WorkerLog :=
      { log with calls := log.calls ++ [(currFile, currFile ++ ".integral")] }
    match c.go currFile (currFile ++ ".integral") with
    | .undefinedBehaviour => none
    | .returned => Worker.loop c rest called
    | .threwStd typeName what =>
      Worker.loop c rest
        { called with cerr := called.cerr ++ [Worker.printStdExcErrMsg c typeName what currFile] }
    | .threwOther =>
      Worker.loop c rest
        { called with cerr := called.cerr ++ [Worker.printUnkExcErrMsg c currFile] }

/-- The function `Worker::operator()` of the worker `wk` on the file list. -/
def Worker.run (wk : Worker) (c : Calls) (files : List String) : Option WorkerLog :=
  Worker.loop c (wk.paths files) { calls := [], cerr := [] }

/-- The text of `typeid(e).name()` for a `std::runtime_error`; it is
implementation-defined, here the name GCC and Clang give. -/
def runtimeErrorTypeName : String := "St13runtime_error"

/-- The surroundings in which `IntegralImage::go` is the function of the
library: every exception it lets out is a `std::runtime_error`. -/
def World.calls (w : World) : Calls :=
  { go := fun inFilePath outFilePath =>
      match IntegralImage.go w inFilePath outFilePath with
      | .returned _ => .returned
      | .threw e _ => .threwStd runtimeErrorTypeName e.what
      | .undefinedBehaviour => .undefinedBehaviour,
    formatFails := fun _ => false }

/-- The logs of the workers of a list of slices, in slice order (the workers of
the pool run concurrently; the log of each does not depend on the others). -/
def runWorkers (c : Calls) (files : List String) : List Worker → Option (List WorkerLog)
  | [] => some []
  | wk :: rest =>
    match wk.run c files with
    | none => none
    | some log => (runWorkers c files rest).map fun logs => log :: logs

/-- The work of the workers of a call `doAllWork(parseResult)`: the log of each
worker, run to its end, in slice order, and whether the `throw` statement that
closes the call is reached (`WorkLog.raised`).  How the call ends is told by
`doAllWorkEnding`. -/
def doAllWorkRun (t : Threads) (c : Calls) (parseResult : List String × Nat) :
    Option (List WorkerLog × Bool) :=
  (runWorkers c parseResult.1 (doAllWork t parseResult).slices).map fun logs =>
    (logs, (doAllWork t parseResult).raised)

/-- The diagnostic a `Worker` writes for a path (specification side): none when
the call returns, the message of the matching handler when it throws. -/
def Worker.diagnostic (c : Calls) (currFile : String) : Option String :=
  match c.go currFile (currFile ++ ".integral") with
  | .threwStd typeName what => some (Worker.printStdExcErrMsg c typeName what currFile)
  | .threwOther => some (Worker.printUnkExcErrMsg c currFile)
  | _ => none

/-- Surroundings in which `b.png` fails with a typed exception, `c.png` with an
untyped one, and every other file is computed. -/
def mixedCalls : Calls :=
  { go := fun inFilePath _ =>
      if inFilePath = "b.png" then .threwStd "St13runtime_error" "Couldn't open file"
      else if inFilePath = "c.png" then .threwOther
      else .returned,
    formatFails := fun _ => false }

/-! ## Command-line parsing: convertToUInt, getopt and parseArgs -/

/-- Exceptions of the argument parser, with their `what()` text. -/
inductive ArgExc where
  | UIntConvError (what : String)
  | ParseError (what : String)
  deriving DecidableEq, Repr

/-- The `what()` text of an exception of the argument parser. -/
def ArgExc.what : ArgExc → String
  | .UIntConvError w => w
  | .ParseError w => w

/-- The characters `operator>>` skips before a number (`std::isspace` in the
"C" locale): space, tab, line feed, vertical tab, form feed, carriage return. -/
def isSpace (c : Char) : Bool :=
  c == ' ' || c == '\t' || c == '\n' || c == '\x0b' || c == '\x0c' || c == '\r'

/-- Value of a run of decimal digits, most significant first. -/
def digitsValue (ds : List Char) : Nat :=
  ds.foldl (fun acc d => 10 * acc + (d.toNat - 48)) 0

/-- The text left after the optional sign of a number. -/
def skipSign : List Char → List Char
  | '-' :: r => r
  | '+' :: r => r
  | r => r

/-- The function `convertToUInt(str)`.  `stream >> result` with `int result`
skips leading white space, reads an optional sign and a run of decimal digits,
and fails when there is no digit or the value does not fit an `int`; `eof()`
holds when the digits reach the end of the text. -/
def convertToUInt (str : String) : Except ArgExc Nat :=
  let afterSpace := str.data.dropWhile isSpace
  let negative : Bool := afterSpace.head? == some '-'
  let body := skipSign afterSpace
  let digits := body.takeWhile Char.isDigit
  let rest := body.dropWhile Char.isDigit
  let result : Int := if negative then -(digitsValue digits : Int) else (digitsValue digits : Int)
  let fail : Bool :=
    digits.isEmpty || decide (result < -2147483648) || decide (2147483647 < result)
  let eof : Bool := rest.isEmpty
  if fail || !eof then .error (.UIntConvError "Error while parsing unsigned int.")
  else if result < 0 then .error (.UIntConvError "The number can't be negative.")
  else .ok result.toNat

/-- What one call `getopt(argc, argv, "-i:t:")` reports, with `opterr = 0`, when
no option group is half read: the end of the scan (`-1`), an option `i` or `t`
with its argument and the arguments left after it, a non-option argument
(code 1, the effect of the leading `-` of the option string) with the arguments
left after it, or `?` for an unknown option character or a missing argument. -/
inductive GetoptResult where
  | finished
  | option (opt : Char) (optarg : String) (rest : List String)
  | nonOption (optarg : String) (rest : List String)
  | unknown
  deriving DecidableEq, Repr

/-- GNU `getopt` on the arguments from `optind` on, for the option string
`-i:t:`.  The argument `--` ends the scan; an argument that does not start with
`-`, or is `-` alone, is a non-option; otherwise the character after the `-` is
looked up: `i` and `t` take the rest of the argument, or else the next
argument, as their value. -/
def getopt : List String → GetoptResult
  | [] => .finished
  | arg :: rest =>
    if arg = "--" then .finished
    else
      match arg.data with
      | '-' :: c :: attached =>
        if c = 'i' ∨ c = 't' then
          match attached, rest with
          | _ :: _, _ => .option c (String.mk attached) rest
          | [], next :: rest' => .option c next rest'
          | [], [] => .unknown
        else .unknown
      | _ => .nonOption arg rest

/-- The message of the `default` branch of `parseArgs`. -/
def usageMessage : String :=
  "Error while parsing. Usage: ./executable -i <path_to_image2> [-i <path_to_image2> […]] "
    ++ "[-t <threads number>]"

/-- The loop `while ((opt = getopt(argc, argv, optstring)) != -1)` of
`parseArgs` followed by the check for an empty file list, with a bound on the
number of iterations; `none` means that the bound was reached. -/
def parseLoop : Nat → List String → List String × Nat → Bool →
    Option (Except ArgExc (List String × Nat))
  | 0, _, _, _ => none
  | fuel + 1, args, result, threadCountMet =>
    match getopt args with
    | .finished =>
      if result.1.isEmpty then some (.error (.ParseError "You should specify at least one file!"))
      else some (.ok result)
    | .option opt optarg rest =>
      if opt = 'i' then parseLoop fuel rest (result.1 ++ [optarg], result.2) threadCountMet
      else if opt = 't' then
        if threadCountMet then
          some (.error (.ParseError "Thread count should be set no more than one time!"))
        else
          match convertToUInt optarg with
          | .error e =>
            some (.error (.ParseError ("Something went wrong while parsing thread count. "
              ++ "Message from parsing function: " ++ e.what)))
          | .ok v => parseLoop fuel rest (result.1, v) true
      else some (.error (.ParseError usageMessage))
    | .nonOption _ _ => some (.error (.ParseError usageMessage))
    | .unknown => some (.error (.ParseError usageMessage))

/-- The function `parseArgs(argc, argv)`: the scan starts after `argv[0]` with
an empty file list and thread count 0.  Every call of `getopt` that does not
end the loop consumes an argument, so `argv.length` iterations suffice. -/
def parseArgs (argv : List String) : Option (Except ArgExc (List String × Nat)) :=
  parseLoop (argv.length + 1) argv.tail ([], 0) false

/-- The kinds of command-line argument (specification side): the `--` that
ends the options, an option `-i` or `-t` with its value attached, such an option
alone (its value is the next argument), or anything else: an unknown flag or a
positional argument. -/
inductive ArgKind where
  | terminator
  | attached (opt : Char) (value : String)
  | detached (opt : Char)
  | stray
  deriving DecidableEq, Repr

/-- The kind of one argument. -/
def argKind (arg : String) : ArgKind :=
  if arg = "--" then .terminator
  else
    match arg.data with
    | '-' :: c :: attached =>
      if c = 'i' ∨ c = 't' then
        match attached with
        | [] => .detached c
        | _ :: _ => .attached c (String.mk attached)
      else .stray
    | _ => .stray

/-- The options of a command line (specification side): the options `-i` and
`-t` with their values, in order, as far as the arguments are scanned, that is
up to the end or to the first `--`.  There is no such list when the scanned
part holds an unknown flag, a stray positional argument or an option without
its value. -/
def scan : List String → Option (List (Char × String))
  | [] => some []
  | arg :: rest =>
    match argKind arg with
    | .terminator => some []
    | .attached c value => (scan rest).map fun opts => (c, value) :: opts
    | .detached c =>
      match rest with
      | [] => none
      | next :: rest' => (scan rest').map fun opts => (c, next) :: opts
    | .stray => none

/-- The values of the `-i` options, in order. -/
def inputsOf (opts : List (Char × String)) : List String :=
  (opts.filter fun o => o.1 = 'i').map fun o => o.2

/-- The values of the `-t` options, in order. -/
def threadsOf (opts : List (Char × String)) : List String :=
  (opts.filter fun o => o.1 = 't').map fun o => o.2

/-- The text `v` is a thread count with value `n` (specification side): a
decimal number, possibly after white space and a sign, that is not negative and
is below `2^31`. -/
def ValidCount (v : String) (n : Nat) : Prop :=
  ∃ ws sign ds : List Char, v.data = ws ++ sign ++ ds ∧ (∀ c ∈ ws, isSpace c = true) ∧
    (sign = [] ∨ sign = ['+'] ∨ (sign = ['-'] ∧ n = 0)) ∧
    ds ≠ [] ∧ (∀ c ∈ ds, c.isDigit = true) ∧ digitsValue ds = n ∧ n < 2147483648

/-- The options are acceptable (specification side), given the paths already
collected and whether a thread count was already met: there is at least one
input path, at most one thread count, and every thread count is valid. -/
def Acceptable (paths : List String) (met : Bool) (opts : List (Char × String)) : Prop :=
  paths ++ inputsOf opts ≠ [] ∧
    (threadsOf opts).length + (if met then 1 else 0) ≤ 1 ∧
    ∀ v ∈ threadsOf opts, ∃ n, ValidCount v n

/-- The thread count `n` the options ask for (specification side), `thr` when
they hold no `-t`. -/
def CountIs (thr : Nat) (opts : List (Char × String)) (n : Nat) : Prop :=
  (threadsOf opts = [] ∧ n = thr) ∨ ∃ v, threadsOf opts = [v] ∧ ValidCount v n

/-! ## main -/

/-- What a run of the program does: its exit code, the logs of its workers in
slice order, and what `main` itself writes to `std::cerr`. -/
structure MainResult where
  exitCode : Int
  workers : List WorkerLog
  cerr : List String
  deriving DecidableEq, Repr

/-- The text of `typeid(e).name()` for the `UIntConvError` of the anonymous
namespace (implementation-defined; `parseArgs` never lets this class out). -/
def uintConvErrorTypeName : String := "N12_GLOBAL__N_113UIntConvErrorE"

/-- How the process ends: `main` returns, or `std::terminate` aborts the process
before `main` returns (no exit code is returned then, and a worker whose `join`
failed may not have run to its end). -/
inductive ProcessEnd where
  | exited (r : MainResult)
  | aborted
  deriving DecidableEq, Repr

/-- The function `main(argc, argv)` of `runner.cpp`.  `none` stands for a run
without defined result: undefined behaviour inside a call of
`IntegralImage::go`.  The handlers of `main` are reached only by an exception
that leaves `doAllWork(parseArgs(argc, argv))`. -/
def Runner.main (t : Threads) (c : Calls) (argv : List String) : Option ProcessEnd :=
  match parseArgs argv with
  | none => none
  | some (.error (.ParseError what)) =>
    some (.exited { exitCode := -1, workers := [],
                    cerr := ["Error while parsing command line args: " ++ what ++ "\n"] })
  | some (.error (.UIntConvError what)) =>
    some (.exited { exitCode := -1, workers := [],
                    cerr := ["Error occured while working. Exception type: "
                      ++ uintConvErrorTypeName ++ ", message: " ++ what ++ "\n"] })
  | some (.ok parseResult) =>
    match doAllWorkRun t c parseResult with
    | none => none
    | some (workers, _) =>
      match doAllWorkEnding t parseResult with
      | .terminated => some .aborted
      | .threw e =>
        some (.exited { exitCode := -1, workers := workers,
                        cerr := ["Error occured while working. Exception type: "
                          ++ runtimeErrorTypeName ++ ", message: " ++ e.what ++ "\n"] })
      | .returned => some (.exited { exitCode := 0, workers := workers, cerr := [] })

/-- Surroundings in which `bad.png` cannot be read and every other file is
computed. -/
def oneBadCalls : Calls :=
  { go := fun inFilePath _ =>
      if inFilePath = "bad.png" then
        .threwStd "St13runtime_error"
          "Exception occured with input file bad.png with message Couldn't open file"
      else .returned,
    formatFails := fun _ => false }

/-- The worker a launch event put on a thread of the pool. -/
def ThreadEvent.launchedWorker : ThreadEvent → Option Worker
  | .launched _ wk => some wk
  | _ => none

/-- The worker an event ran on the calling thread. -/
def ThreadEvent.inlineWorker : ThreadEvent → Option Worker
  | .ranInline wk => some wk
  | _ => none

/-- Whether the event is a call of `join`. -/
def ThreadEvent.isJoin : ThreadEvent → Bool
  | .joined _ => true
  | .joinFailed _ => true
  | _ => false

/-- The position `i` of the file list is one of those the worker walks over. -/
def Worker.covers (wk : Worker) (i : Nat) : Bool :=
  decide (wk.m_beg ≤ i ∧ i < wk.m_end)

/-- A host with four hardware threads on which the second launch fails. -/
def secondLaunchFails : Threads :=
  { hardwareHint := 4, launchFails := fun k => k == 1, joinFails := fun _ => false }

/-- Whether the event is the construction of a `std::thread`, successful or
not. -/
def ThreadEvent.isLaunchAttempt : ThreadEvent → Bool
  | .launched _ _ => true
  | .launchFailed _ => true
  | _ => false

/-- A host with four hardware threads on which the third launch and the join of
thread 0 fail. -/
def thirdLaunchFirstJoinFail : Threads :=
  { hardwareHint := 4, launchFails := fun k => k == 2, joinFails := fun k => k == 0 }

/-! ## Lemmas on text -/

theorem foldl_append_init (ys : List String) (b : String) :
    List.foldl (fun r s => r ++ s) b ys = b ++ List.foldl (fun r s => r ++ s) "" ys := by
  induction ys generalizing b with
  | nil => simp
  | cons y ys ih =>
    simp only [List.foldl_cons]
    rw [ih (b ++ y), ih ("" ++ y)]
    simp [String.append_assoc]

theorem join_cons (x : String) (xs : List String) :
    String.join (x :: xs) = x ++ String.join xs := by
  simp only [String.join, List.foldl_cons]
  rw [foldl_append_init xs ("" ++ x)]
  simp

theorem intercalate_go_eq (sep : String) (l : List String) (acc : String) :
    String.intercalate.go acc sep l = acc ++ String.join (l.map fun x => sep ++ x) := by
  induction l generalizing acc with
  | nil => simp [String.intercalate.go, String.join]
  | cons a as ih =>
    simp only [String.intercalate.go, List.map_cons]
    rw [ih, join_cons]
    simp [String.append_assoc]

theorem intercalate_single (sep a : String) : sep.intercalate [a] = a := by
  simp [String.intercalate, String.intercalate.go]

theorem intercalate_cons_cons (sep a b : String) (l : List String) :
    sep.intercalate (a :: b :: l) = a ++ sep ++ sep.intercalate (b :: l) := by
  simp only [String.intercalate, intercalate_go_eq, List.map_cons]
  rw [join_cons]
  simp [String.append_assoc]

/-! ## The scan of printChannel computes the integral image -/

theorem chooseGetter_reads {mat : Mat} {getter : ElemGetter.DoubleGetter}
    (h : ElemGetter.chooseGetter mat = .ok getter) (r c : Nat) :
    getter mat r c = mat.cell r c := by
  unfold ElemGetter.chooseGetter at h
  split_ifs at h <;> (injection h with h; subst h; rfl)

theorem integral_eq_above_add (mat : Mat) (i j : Nat) :
    integral mat i j = sumAbove mat i j + rowAbs mat i (j + 1) := by
  simp [integral, sumAbove, rowAbs, Finset.sum_range_succ]

theorem rowAbs_succ (mat : Mat) (i k : Nat) :
    rowAbs mat i (k + 1) = rowAbs mat i k + |mat.cell i k| := by
  simp [rowAbs, Finset.sum_range_succ]

theorem sumAbove_succ (mat : Mat) (i j : Nat) :
    sumAbove mat (i + 1) j = integral mat i j := rfl

theorem sumAbove_zero (mat : Mat) (j : Nat) : sumAbove mat 0 j = 0 := by
  simp [sumAbove]

theorem intercalate_step (sep : String) (f : Nat → String) (C n k : Nat)
    (hk : k + (n + 1) = C) :
    (if k ≠ C - 1 then f k ++ sep else f k) ++ sep.intercalate ((List.range' (k + 1) n).map f)
      = sep.intercalate ((List.range' k (n + 1)).map f) := by
  cases n with
  | zero =>
    have : k = C - 1 := by omega
    simp [this, List.range', String.intercalate, String.intercalate.go]
  | succ m =>
    have : k ≠ C - 1 := by omega
    simp only [this, ne_eq, not_false_eq_true, if_true, List.range', List.map_cons]
    rw [intercalate_cons_cons]

theorem rowText_step (f : Nat → Int) (C n k : Nat) (hk : k + (n + 1) = C) :
    (if k ≠ C - 1 then fixed1 (f k) ++ " " else fixed1 (f k))
        ++ rowText ((List.range' (k + 1) n).map f)
      = rowText ((List.range' k (n + 1)).map f) := by
  have h := intercalate_step " " (fun j => fixed1 (f j)) C n k hk
  simpa [rowText, List.map_map, Function.comp_def] using h

theorem colLoop_scan (getter : ElemGetter.DoubleGetter) (mat : Mat) (C i : Nat)
    (hg : ∀ r c, getter mat r c = mat.cell r c) :
    ∀ (n k : Nat) (s : ScanState), k + n = C → s.rowSum = rowAbs mat i k →
      (∀ j, k ≤ j → j < C → s.prevRow[j]? = some (sumAbove mat i j)) →
      (∀ j, j < k → s.prevRow[j]? = some (integral mat i j)) →
      ∃ s', colLoop getter mat C i n k s = some s' ∧
        s'.ofs = s.ofs ++ rowText ((List.range' k n).map fun j => integral mat i j) ∧
        ∀ j, j < C → s'.prevRow[j]? = some (integral mat i j) := by
  intro n
  induction n with
  | zero =>
    intro k s hk _ _ hlo
    refine ⟨s, rfl, ?_, ?_⟩
    · simp [rowText, String.intercalate]
    · intro j hj
      exact hlo j (by omega)
  | succ n ih =>
    intro k s hk hsum hhi hlo
    have hprev := hhi k (le_refl k) (by omega)
    have hval : sumAbove mat i k + s.rowSum + |getter mat i k| = integral mat i k := by
      rw [hg, hsum, integral_eq_above_add, rowAbs_succ]; ring
    have hlen : k < s.prevRow.length := by
      by_contra hc
      have := List.getElem?_eq_none (Nat.le_of_not_lt hc)
      rw [this] at hprev
      exact absurd hprev (by simp)
    obtain ⟨s', hs', hofs, hrow⟩ := ih (k + 1)
      { ofs := if k ≠ C - 1 then s.ofs ++ fixed1 (integral mat i k) ++ " "
               else s.ofs ++ fixed1 (integral mat i k),
        prevRow := s.prevRow.set k (integral mat i k),
        rowSum := s.rowSum + |getter mat i k| }
      (by omega)
      (by simp only [hg, hsum, rowAbs_succ])
      (by
        intro j hj1 hj2
        simp only [List.getElem?_set]
        rw [if_neg (by omega)]
        exact hhi j (by omega) hj2)
      (by
        intro j hj
        simp only [List.getElem?_set]
        by_cases hjk : k = j
        · subst hjk
          simp [hlen]
        · rw [if_neg hjk]
          exact hlo j (by omega))
    refine ⟨s', ?_, ?_, hrow⟩
    · simp only [colLoop, hprev, hval]
      exact hs'
    · rw [hofs, ← rowText_step (fun j => integral mat i j) C n k hk]
      by_cases hc : k = C - 1
      · simp [hc, String.append_assoc]
      · simp [hc, String.append_assoc]

theorem rowLoop_scan (getter : ElemGetter.DoubleGetter) (mat : Mat) (R C : Nat)
    (hg : ∀ r c, getter mat r c = mat.cell r c) :
    ∀ (n i : Nat) (ofs : String) (prevRow : List Int), i + n = R →
      (∀ j, j < C → prevRow[j]? = some (sumAbove mat i j)) →
      ∃ prevRow', rowLoop getter mat R C n i (ofs, prevRow) =
        some (ofs ++ "\n".intercalate ((List.range' i n).map fun i' =>
          rowText ((List.range' 0 C).map fun j => integral mat i' j)), prevRow') := by
  intro n
  induction n with
  | zero =>
    intro i ofs prevRow _ _
    exact ⟨prevRow, by simp [rowLoop, String.intercalate]⟩
  | succ n ih =>
    intro i ofs prevRow hi hprev
    obtain ⟨s', hs', hofs, hrow⟩ := colLoop_scan getter mat C i hg C 0
      { ofs := ofs, prevRow := prevRow, rowSum := 0 } (by omega) (by simp [rowAbs])
      (fun j _ hj => hprev j hj) (fun j hj => absurd hj (by omega))
    obtain ⟨prevRow', hrec⟩ := ih (i + 1)
      (if i ≠ R - 1 then s'.ofs ++ "\n" else s'.ofs) s'.prevRow (by omega)
      (fun j hj => by rw [sumAbove_succ]; exact hrow j hj)
    refine ⟨prevRow', ?_⟩
    simp only [rowLoop, hs']
    rw [hrec, ← intercalate_step "\n"
      (fun i' => rowText ((List.range' 0 C).map fun j => integral mat i' j)) R n i hi]
    simp only at hofs
    rw [hofs]
    by_cases hc : i = R - 1
    · simp [hc, String.append_assoc]
    · simp [hc, String.append_assoc]

theorem chooseGetter_ok_of_supported {mat : Mat} (h : supportedType mat.type) :
    ∃ getter, ElemGetter.chooseGetter mat = .ok getter := by
  unfold ElemGetter.chooseGetter
  split_ifs <;> first
    | exact ⟨_, rfl⟩
    | (exfalso; rcases h with h | h | h | h | h | h | h <;> contradiction)

/-- On a plane of a supported encoding that is no wider than tall, the scan
runs to completion and appends the text of the specified integral image. -/
theorem printChannel_integral (mat : Mat) (ofs : String)
    (ht : supportedType mat.type) (hc : 0 ≤ mat.cols) (hcr : mat.cols ≤ mat.rows) :
    printChannel mat ofs =
      .returned (ofs ++ gridText (integralGrid mat mat.rows.toNat mat.cols.toNat)) := by
  obtain ⟨getter, hget⟩ := chooseGetter_ok_of_supported ht
  have hg := chooseGetter_reads hget
  obtain ⟨prevRow', hrun⟩ := rowLoop_scan getter mat mat.rows.toNat mat.cols.toNat hg
    mat.rows.toNat 0 ofs (List.replicate mat.rows.toNat 0) (by omega)
    (by
      intro j hj
      rw [sumAbove_zero, List.getElem?_replicate, if_pos (by omega)])
  have hneg : ¬ (mat.rows < 0 ∨ mat.cols < 0) := by omega
  simp only [printChannel, hneg, if_false, hget, hrun]
  simp [gridText, integralGrid, List.range_eq_range', List.map_map, Function.comp_def]

/-! ## The text already in the stream does not influence a run -/

theorem colLoop_pre (getter : ElemGetter.DoubleGetter) (mat : Mat) (C i : Nat) (p : String) :
    ∀ (n k : Nat) (s : ScanState),
      colLoop getter mat C i n k { s with ofs := p ++ s.ofs } =
        (colLoop getter mat C i n k s).map fun s' => { s' with ofs := p ++ s'.ofs } := by
  intro n
  induction n with
  | zero => intro k s; simp [colLoop]
  | succ n ih =>
    intro k s
    simp only [colLoop]
    cases hp : s.prevRow[k]? with
    | none => simp
    | some prev =>
      simp only
      by_cases hc : k = C - 1
      · simp only [hc, ne_eq, not_true_eq_false, if_false]
        rw [← ih]
        simp [String.append_assoc]
      · simp only [hc, ne_eq, not_false_eq_true, if_true]
        rw [← ih]
        simp [String.append_assoc]

theorem rowLoop_pre (getter : ElemGetter.DoubleGetter) (mat : Mat) (R C : Nat) (p : String) :
    ∀ (n i : Nat) (ofs : String) (prevRow : List Int),
      rowLoop getter mat R C n i (p ++ ofs, prevRow) =
        (rowLoop getter mat R C n i (ofs, prevRow)).map fun r => (p ++ r.1, r.2) := by
  intro n
  induction n with
  | zero => intro i ofs prevRow; simp [rowLoop]
  | succ n ih =>
    intro i ofs prevRow
    simp only [rowLoop]
    have h := colLoop_pre getter mat C i p C 0 { ofs := ofs, prevRow := prevRow, rowSum := 0 }
    simp only at h
    rw [h]
    cases hcol : colLoop getter mat C i C 0 { ofs := ofs, prevRow := prevRow, rowSum := 0 } with
    | none => simp
    | some s' =>
      simp only [Option.map_some']
      by_cases hc : i = R - 1
      · simp only [hc, ne_eq, not_true_eq_false, if_false]
        rw [← ih]
      · simp only [hc, ne_eq, not_false_eq_true, if_true]
        rw [← ih]
        simp [String.append_assoc]

/-- The effect of `printChannel` on a stream holding `ofs` is its effect on an
empty stream, after `ofs`. -/
theorem printChannel_pre (mat : Mat) (ofs : String) :
    printChannel mat ofs =
      match printChannel mat "" with
      | .returned t => .returned (ofs ++ t)
      | .threw e t => .threw e (ofs ++ t)
      | .undefinedBehaviour => .undefinedBehaviour := by
  unfold printChannel
  by_cases hneg : mat.rows < 0 ∨ mat.cols < 0
  · simp [hneg]
  · simp only [hneg, if_false]
    cases hget : ElemGetter.chooseGetter mat with
    | error e => simp
    | ok getter =>
      simp only
      have h := rowLoop_pre getter mat mat.rows.toNat mat.cols.toNat ofs mat.rows.toNat 0 ""
        (List.replicate mat.rows.toNat 0)
      simp only [String.append_empty] at h
      rw [h]
      cases hrow : rowLoop getter mat mat.rows.toNat mat.cols.toNat mat.rows.toNat 0
          ("", List.replicate mat.rows.toNat 0) with
      | none => simp
      | some r => simp

/-! ## A plane wider than tall overruns the previous-row buffer -/

theorem colLoop_overrun (getter : ElemGetter.DoubleGetter) (mat : Mat) (C i : Nat) :
    ∀ (n k : Nat) (s : ScanState), k ≤ s.prevRow.length → s.prevRow.length < k + n →
      colLoop getter mat C i n k s = none := by
  intro n
  induction n with
  | zero => intro k s h1 h2; omega
  | succ n ih =>
    intro k s h1 h2
    simp only [colLoop]
    cases hp : s.prevRow[k]? with
    | none => rfl
    | some prev =>
      simp only
      have hlen : k < s.prevRow.length := by
        by_contra hc
        rw [List.getElem?_eq_none (Nat.le_of_not_lt hc)] at hp
        exact absurd hp (by simp)
      apply ih
      · simp only [List.length_set]; omega
      · simp only [List.length_set]; omega

theorem printChannel_wide (mat : Mat) (ofs : String) (ht : supportedType mat.type)
    (hr : 1 ≤ mat.rows) (hrc : mat.rows < mat.cols) :
    printChannel mat ofs = .undefinedBehaviour := by
  obtain ⟨getter, hget⟩ := chooseGetter_ok_of_supported ht
  have hneg : ¬ (mat.rows < 0 ∨ mat.cols < 0) := by omega
  obtain ⟨n, hn⟩ : ∃ n, mat.rows.toNat = n + 1 := ⟨mat.rows.toNat - 1, by omega⟩
  have hcol : ∀ ofs0, colLoop getter mat mat.cols.toNat 0 mat.cols.toNat 0
      { ofs := ofs0, prevRow := List.replicate (n + 1) 0, rowSum := 0 } = none := by
    intro ofs0
    apply colLoop_overrun
    · simp
    · simp only [List.length_replicate]; omega
  simp only [printChannel, hneg, if_false, hget, hn, rowLoop, hcol]

/-! ## Properties of the specified values -/

theorem integral_constPlane (R C t v : Int) (i j : Nat) :
    integral (constPlane R C t v) i j = |v| * (i + 1) * (j + 1) := by
  simp only [integral, constPlane, Finset.sum_const, Finset.card_range, smul_eq_mul,
    nsmul_eq_mul]
  push_cast
  ring

theorem integralGrid_constPlane (Rz Cz t v : Int) (R C : Nat) :
    integralGrid (constPlane Rz Cz t v) R C = constGrid |v| R C := by
  simp only [integralGrid, constGrid, integral_constPlane]

theorem constGrid_zero (R C : Nat) :
    constGrid 0 R C = List.replicate R (List.replicate C 0) := by
  have hrow : ∀ n : Nat, ((List.range n).map fun _ : Nat => (0 : Int)) = List.replicate n 0 := by
    intro n
    apply List.ext_getElem <;> simp
  simp only [constGrid, zero_mul, hrow]
  apply List.ext_getElem <;> simp

theorem intercalate_replicate_empty (sep : String) (n : Nat) :
    sep.intercalate (List.replicate (n + 1) "") = String.join (List.replicate n sep) := by
  induction n with
  | zero => simp [String.intercalate, String.intercalate.go, String.join]
  | succ n ih =>
    rw [List.replicate_succ, List.replicate_succ, intercalate_cons_cons, ← List.replicate_succ, ih,
      List.replicate_succ, join_cons]
    simp

theorem printChannel_no_rows (mat : Mat) (ofs : String) (ht : supportedType mat.type)
    (hr : mat.rows = 0) (hc : 0 ≤ mat.cols) : printChannel mat ofs = .returned ofs := by
  obtain ⟨getter, hget⟩ := chooseGetter_ok_of_supported ht
  have hneg : ¬ (mat.rows < 0 ∨ mat.cols < 0) := by omega
  simp [printChannel, hneg, hget, hr, hc, rowLoop]

theorem printChannel_no_cols (mat : Mat) (ofs : String) (ht : supportedType mat.type)
    (hc : mat.cols = 0) (hr : 1 ≤ mat.rows) :
    printChannel mat ofs =
      .returned (ofs ++ String.join (List.replicate (mat.rows.toNat - 1) "\n")) := by
  rw [printChannel_integral mat ofs ht (by omega) (by omega)]
  obtain ⟨n, hn⟩ : ∃ n, mat.rows.toNat = n + 1 := ⟨mat.rows.toNat - 1, by omega⟩
  have hrows : ((List.range (n + 1)).map fun _ : Nat => "") = List.replicate (n + 1) "" := by
    apply List.ext_getElem <;> simp
  have htxt : rowText [] = "" := by simp [rowText, String.intercalate]
  simp only [hc, hn, Int.toNat_zero, integralGrid, gridText, List.range_zero, List.map_nil,
    List.map_map, Function.comp_def, htxt, hrows, intercalate_replicate_empty,
    Nat.add_sub_cancel]

/-! ## Claims on printChannel -/

/-- C1 (code defect).  The claim promises success on every plane with at least
one row and one column.  The previous-row buffer is created with `matRows`
entries but indexed by the column, so on every plane of a supported encoding
with more columns than rows (and at least one row) the scan reads `prevRow`
outside its bounds: the run is undefined behaviour, not a successful print. -/
theorem C1_printChannel_wide_plane_overruns (mat : Mat) (ofs : String)
    (ht : supportedType mat.type) (hr : 1 ≤ mat.rows) (hrc : mat.rows < mat.cols) :
    printChannel mat ofs = .undefinedBehaviour :=
  printChannel_wide mat ofs ht hr hrc

/-- C1, at the failing input: a plane of one row and two columns of ones. -/
theorem C1_printChannel_wide_plane_overruns_witness :
    supportedType (constPlane 1 2 CV_8U 1).type ∧ (1 : Int) ≤ (constPlane 1 2 CV_8U 1).rows ∧
      (constPlane 1 2 CV_8U 1).rows < (constPlane 1 2 CV_8U 1).cols ∧
      printChannel (constPlane 1 2 CV_8U 1) "" = .undefinedBehaviour :=
  ⟨by decide, by decide, by decide,
    C1_printChannel_wide_plane_overruns (constPlane 1 2 CV_8U 1) "" (by decide) (by decide)
      (by decide)⟩

/-- C2, as stated, fails: on the one-cell plane of signed bytes holding `-1` the
emitted value is `1.0`, while `v * (i + 1) * (j + 1)` is `-1`. -/
theorem C2_constant_plane_counterexample :
    printChannel (constPlane 1 1 CV_8S (-1)) "" = .returned "1.0" ∧
      gridText (constGrid (-1) 1 1) = "-1.0" := by
  decide

/-- C2 (amended).  On a plane of a supported encoding that is no wider than tall
and holds the same integer `v` in every cell, with `|v| * R * C` at most `2^53`
(the range in which the `double` sums of the scan are exact), `printChannel`
emits at row `i`, column `j` the value `|v| * (i + 1) * (j + 1)`, every one of
these values being at most `2^53`; when `v = 0` every emitted value is `0.0`. -/
theorem C2_constant_plane_magnitude (R C : Nat) (t v : Int) (ofs : String)
    (ht : supportedType t) (hcr : C ≤ R) (hexact : |v| * R * C ≤ 2 ^ 53) :
    printChannel (constPlane R C t v) ofs = .returned (ofs ++ gridText (constGrid |v| R C)) ∧
      (∀ i j : Nat, i < R → j < C → |v| * ((i : Int) + 1) * ((j : Int) + 1) ≤ 2 ^ 53) ∧
      (v = 0 → printChannel (constPlane R C t v) ofs =
        .returned (ofs ++ gridText (List.replicate R (List.replicate C 0)))) := by
  have h : printChannel (constPlane R C t v) ofs =
      .returned (ofs ++ gridText (constGrid |v| R C)) := by
    have hi := printChannel_integral (constPlane R C t v) ofs ht
      (by simp [constPlane]) (by simp [constPlane, hcr])
    rw [integralGrid_constPlane] at hi
    simpa [constPlane] using hi
  refine ⟨h, ?_, ?_⟩
  · intro i j hi hj
    have hv : 0 ≤ |v| := abs_nonneg v
    have hi' : (i : Int) + 1 ≤ R := by exact_mod_cast hi
    have hj' : (j : Int) + 1 ≤ C := by exact_mod_cast hj
    have h1 : |v| * ((i : Int) + 1) ≤ |v| * R := mul_le_mul_of_nonneg_left hi' hv
    have h2 : |v| * ((i : Int) + 1) * ((j : Int) + 1) ≤ |v| * R * C :=
      mul_le_mul h1 hj' (by positivity) (by positivity)
    exact le_trans h2 hexact
  · intro hv
    rw [h, hv, abs_zero, constGrid_zero]

/-- C2 (amended), on the 2 x 2 plane of signed bytes holding `-3`. -/
theorem C2_constant_plane_magnitude_witness :
    supportedType CV_8S ∧ 2 ≤ 2 ∧ |(-3 : Int)| * (2 : Nat) * (2 : Nat) ≤ 2 ^ 53 ∧
      printChannel (constPlane (2 : Nat) (2 : Nat) CV_8S (-3)) "" =
        .returned ("" ++ gridText (constGrid |(-3)| 2 2)) :=
  ⟨by decide, by decide, by decide,
    (C2_constant_plane_magnitude 2 2 CV_8S (-3) "" (by decide) (by decide) (by decide)).1⟩

/-- C3, as stated, fails: on the 2 x 2 plane of ones the text is not
`1.0 1.0\n2.0 2.0`. -/
theorem C3_two_by_two_counterexample :
    printChannel (constPlane 2 2 CV_8U 1) "" ≠ .returned "1.0 1.0\n2.0 2.0" := by
  decide

/-- C3 (amended).  For a 2 x 2 plane of a supported encoding in which every pixel
has magnitude 1, the text `printChannel` writes is exactly `1.0 2.0\n2.0 4.0`,
with no trailing newline. -/
theorem C3_two_by_two_text (mat : Mat) (ht : supportedType mat.type)
    (hr : mat.rows = 2) (hc : mat.cols = 2)
    (hone : ∀ i j, i < 2 → j < 2 → |mat.cell i j| = 1) :
    printChannel mat "" = .returned "1.0 2.0\n2.0 4.0" := by
  rw [printChannel_integral mat "" ht (by omega) (by omega)]
  have hgrid : integralGrid mat 2 2 = [[1, 2], [2, 4]] := by
    simp [integralGrid, integral, Finset.sum_range_succ, List.range_succ,
      hone 0 0 (by omega) (by omega), hone 0 1 (by omega) (by omega),
      hone 1 0 (by omega) (by omega), hone 1 1 (by omega) (by omega)]
  rw [hr, hc]
  have h2 : (2 : Int).toNat = 2 := rfl
  rw [h2, hgrid]
  decide

/-- C3 (amended), on the plane whose pixels are `1, -1, -1, 1`. -/
theorem C3_two_by_two_text_witness :
    printChannel
      { rows := 2, cols := 2, type := CV_16S, cell := fun i j => if i = j then 1 else -1 } ""
      = .returned "1.0 2.0\n2.0 4.0" :=
  C3_two_by_two_text
    { rows := 2, cols := 2, type := CV_16S, cell := fun i j => if i = j then 1 else -1 }
    (by decide) rfl rfl
    (by
      intro i j hi hj
      have hi' : i = 0 ∨ i = 1 := by omega
      have hj' : j = 0 ∨ j = 1 := by omega
      rcases hi' with rfl | rfl <;> rcases hj' with rfl | rfl <;> decide)

/-- C4 (code defect).  Monotone values are promised on every plane, but on the
plane of two rows and three columns the scan indexes the two-entry previous-row
buffer with column 2: the run is undefined behaviour and emits no grid. -/
theorem C4_monotone_fails_on_wide_plane :
    printChannel (constPlane 2 3 CV_8U 5) "" = .undefinedBehaviour := by
  decide

/-- C5 (code defect).  The row and column layout is promised on every plane with
at least one row and one column, but on the plane of one row and three columns
the scan indexes the one-entry previous-row buffer with column 1: the run is
undefined behaviour and no text of one row of three values results. -/
theorem C5_layout_fails_on_wide_plane :
    printChannel (constPlane 1 3 CV_8U 7) "" = .undefinedBehaviour ∧
      printChannel (constPlane 1 3 CV_8U 7) "" ≠ .returned "7.0 14.0 21.0" := by
  decide

/-- C7, as stated, fails: a plane without rows completes normally with empty
output and a plane of three rows without columns completes normally with two
newlines. -/
theorem C7_zero_dimension_counterexample :
    printChannel (constPlane 0 3 CV_8U 1) "" = .returned "" ∧
      printChannel (constPlane 3 0 CV_8U 1) "" = .returned "\n\n" := by
  decide

/-- C7 (amended).  A plane with a negative row or column count makes
`printChannel` fail with a `ChannelPrintError` and write nothing.  A plane of a
supported encoding with `R = 0` or `C = 0` is accepted: the run completes
normally, writing nothing when `R = 0` and `R - 1` newlines when `C = 0` and
`R ≥ 1`. -/
theorem C7_dimension_guard (mat : Mat) (ofs : String) :
    ((mat.rows < 0 ∨ mat.cols < 0) →
      printChannel mat ofs = .threw (.ChannelPrintError "Row/col count is wrong. Sorry.") ofs) ∧
    (supportedType mat.type → mat.rows = 0 → 0 ≤ mat.cols →
      printChannel mat ofs = .returned ofs) ∧
    (supportedType mat.type → mat.cols = 0 → 1 ≤ mat.rows →
      printChannel mat ofs =
        .returned (ofs ++ String.join (List.replicate (mat.rows.toNat - 1) "\n"))) := by
  refine ⟨?_, printChannel_no_rows mat ofs, printChannel_no_cols mat ofs⟩
  intro h
  simp [printChannel, h]

/-- C7 (amended), on a plane with a negative row count, a plane without rows and
a plane of four rows without columns. -/
theorem C7_dimension_guard_witness :
    printChannel (constPlane (-1) 4 CV_8U 0) "ab" =
        .threw (.ChannelPrintError "Row/col count is wrong. Sorry.") "ab" ∧
      printChannel (constPlane 0 5 CV_32F 0) "ab" = .returned "ab" ∧
      printChannel (constPlane 4 0 CV_64F 0) "ab" =
        .returned ("ab" ++ String.join (List.replicate ((4 : Int).toNat - 1) "\n")) :=
  ⟨(C7_dimension_guard (constPlane (-1) 4 CV_8U 0) "ab").1 (by decide),
    (C7_dimension_guard (constPlane 0 5 CV_32F 0) "ab").2.1 (by decide) rfl (by decide),
    (C7_dimension_guard (constPlane 4 0 CV_64F 0) "ab").2.2 (by decide) rfl (by decide)⟩

/-! ## go_impl: channels in index order -/

theorem chanLoop_all (w : World) (outFilePath : String) (channels : Nat → Mat) (k : Nat)
    (texts : Nat → String) :
    ∀ (n i : Nat) (ofs : String), i + n = k →
      (∀ c, i ≤ c → c < k → w.streamFails outFilePath c = false) →
      (∀ c, i ≤ c → c < k → printChannel (channels c) "" = .returned (texts c)) →
      chanLoop w outFilePath channels k n i ofs =
        .returned (ofs ++ "\n\n".intercalate ((List.range' i n).map texts)) := by
  intro n
  induction n with
  | zero => intro i ofs _ _ _; simp [chanLoop, String.intercalate]
  | succ n ih =>
    intro i ofs hi hstream hprint
    have hp : printChannel (channels i) ofs = .returned (ofs ++ texts i) := by
      rw [printChannel_pre, hprint i (le_refl i) (by omega)]
    simp only [chanLoop, hp, hstream i (le_refl i) (by omega)]
    rw [ih (i + 1) _ (by omega) (fun c h1 h2 => hstream c (by omega) h2)
      (fun c h1 h2 => hprint c (by omega) h2),
      ← intercalate_step "\n\n" texts k n i hi]
    by_cases hc : i = k - 1
    · simp [hc, String.append_assoc]
    · simp [hc, String.append_assoc]

theorem chanLoop_reach (w : World) (outFilePath : String) (channels : Nat → Mat) (k : Nat) :
    ∀ (m n i : Nat) (ofs : String),
      (∀ c, i ≤ c → c < i + m → (∃ t, printChannel (channels c) "" = .returned t) ∧
        w.streamFails outFilePath c = false) →
      ∃ ofs', chanLoop w outFilePath channels k (m + n) i ofs =
        chanLoop w outFilePath channels k n (i + m) ofs' := by
  intro m
  induction m with
  | zero => intro n i ofs _; exact ⟨ofs, by simp⟩
  | succ m ih =>
    intro n i ofs h
    obtain ⟨⟨t, ht⟩, hs⟩ := h i (le_refl i) (by omega)
    have hp : printChannel (channels i) ofs = .returned (ofs ++ t) := by
      rw [printChannel_pre, ht]
    obtain ⟨ofs', hrec⟩ := ih n (i + 1)
      (if i ≠ k - 1 then ofs ++ t ++ "\n\n" else ofs ++ t)
      (fun c h1 h2 => h c (by omega) (by omega))
    refine ⟨ofs', ?_⟩
    have e1 : m + 1 + n = (m + n) + 1 := by omega
    have e2 : i + (m + 1) = i + 1 + m := by omega
    rw [e1, e2, ← hrec]
    simp only [chanLoop, hp, hs]
    rfl

theorem contains_mid (a t b : String) : Contains (a ++ t ++ b) t :=
  ⟨a.data, b.data, by simp [String.data_append]⟩

theorem contains_end (a t : String) : Contains (a ++ t) t :=
  ⟨a.data, [], by simp [String.data_append]⟩

theorem chooseGetter_ok_iff (mat : Mat) :
    (∃ getter, ElemGetter.chooseGetter mat = .ok getter) ↔ supportedType mat.type := by
  constructor
  · rintro ⟨getter, h⟩
    unfold ElemGetter.chooseGetter at h
    unfold supportedType
    split_ifs at h <;> simp_all
  · exact chooseGetter_ok_of_supported

theorem printChannel_unsupported (mat : Mat) (ofs : String) (hr : 0 ≤ mat.rows)
    (hc : 0 ≤ mat.cols) (ht : ¬ supportedType mat.type) :
    printChannel mat ofs = .threw (.ChannelPrintError
      ("Can't work with cv::Mat of type " ++ toString mat.type ++ ". Sorry.")) ofs := by
  have hneg : ¬ (mat.rows < 0 ∨ mat.cols < 0) := by omega
  have hget : ElemGetter.chooseGetter mat = .error (.UnknownTypeError (toString mat.type)) := by
    unfold supportedType at ht
    unfold ElemGetter.chooseGetter
    split_ifs <;> first | rfl | (exfalso; apply ht; simp [*])
  simp [printChannel, hneg, hget, Exc.what]

/-! ## Claims on go_impl and IntegralImage::go -/

/-- C6.  For a decoded image with `k ≥ 1` channels whose planes print the texts
`texts 0 .. texts (k - 1)`, with the output file opened and no stream fault,
`go_impl` returns normally and the file content is the channel texts in index
order joined by two newlines, with nothing after the last text. -/
theorem C6_go_impl_joins_channels (w : World) (inFilePath outFilePath : String) (k : Nat)
    (texts : Nat → String)
    (hdata : (w.imread inFilePath).dataNull = false)
    (hchan : (w.imread inFilePath).channels = k) (hk : 1 ≤ k)
    (hopen : w.openFails outFilePath = false)
    (hstream : ∀ c, c < k → w.streamFails outFilePath c = false)
    (hprint : ∀ c, c < k →
      printChannel ((w.imread inFilePath).split c) "" = .returned (texts c)) :
    go_impl w inFilePath outFilePath =
      .returned ("\n\n".intercalate ((List.range k).map texts)) := by
  have hnn : ¬ ((w.imread inFilePath).channels < 0) := by omega
  have hnat : (w.imread inFilePath).channels.toNat = k := by omega
  simp only [go_impl, hdata, hnn, hopen, hnat, if_false, Bool.false_eq_true]
  rw [chanLoop_all w outFilePath _ k texts k 0 "" (by omega)
    (fun c _ h => hstream c h) (fun c _ h => hprint c h)]
  simp [List.range_eq_range']

/-- C6, on an image of three 2 x 2 channels. -/
theorem C6_go_impl_joins_channels_witness :
    go_impl sampleWorld "a.jpg" "a.jpg.integral" =
      .returned ("\n\n".intercalate
        ((List.range 3).map fun c =>
          if c = 0 then "1.0 2.0\n2.0 4.0"
          else if c = 1 then "2.0 4.0\n4.0 8.0" else "3.0 6.0\n6.0 12.0")) :=
  C6_go_impl_joins_channels sampleWorld "a.jpg" "a.jpg.integral" 3 _ rfl rfl (by decide) rfl
    (fun _ _ => rfl)
    (by
      intro c hc
      have h : c = 0 ∨ c = 1 ∨ c = 2 := by omega
      rcases h with rfl | rfl | rfl <;> decide)

/-- C8.  `chooseGetter` succeeds exactly for the seven encodings.  For every
other type code `t` (on a plane whose row and column counts are not negative)
`printChannel` fails with a `ChannelPrintError` whose message contains the
decimal text of `t` and writes nothing; when channel `c` is the first such plane
of an image, `go_impl` raises an error whose message contains the channel index
and that message, and `IntegralImage::go` raises one error whose message
contains the input path. -/
theorem C8_unsupported_encoding (w : World) (inFilePath outFilePath : String) (c : Nat)
    (hdata : (w.imread inFilePath).dataNull = false)
    (hchan : (c : Int) < (w.imread inFilePath).channels)
    (hopen : w.openFails outFilePath = false)
    (hbefore : ∀ c', c' < c →
      (∃ t, printChannel ((w.imread inFilePath).split c') "" = .returned t) ∧
        w.streamFails outFilePath c' = false)
    (hr : 0 ≤ ((w.imread inFilePath).split c).rows)
    (hc : 0 ≤ ((w.imread inFilePath).split c).cols)
    (ht : ¬ supportedType ((w.imread inFilePath).split c).type) :
    (∀ mat, (∃ getter, ElemGetter.chooseGetter mat = .ok getter) ↔ supportedType mat.type) ∧
    (∀ (mat : Mat) (ofs : String), 0 ≤ mat.rows → 0 ≤ mat.cols → ¬ supportedType mat.type →
      ∃ msg, printChannel mat ofs = .threw (.ChannelPrintError msg) ofs ∧
        Contains msg (toString mat.type)) ∧
    (∃ msg cause ofs, go_impl w inFilePath outFilePath = .threw (.runtime_error msg) ofs ∧
      Contains msg (toString c) ∧ Contains msg cause ∧
      Contains cause (toString ((w.imread inFilePath).split c).type) ∧
      ∃ msg', IntegralImage.go w inFilePath outFilePath = .threw (.runtime_error msg') ofs ∧
        Contains msg' inFilePath ∧ Contains msg' msg) := by
  refine ⟨chooseGetter_ok_iff, ?_, ?_⟩
  · intro mat ofs hr' hc' ht'
    exact ⟨_, printChannel_unsupported mat ofs hr' hc' ht', contains_mid _ _ _⟩
  · have hnn : ¬ ((w.imread inFilePath).channels < 0) := by omega
    obtain ⟨n, hn⟩ : ∃ n, (w.imread inFilePath).channels.toNat = c + (n + 1) :=
      ⟨(w.imread inFilePath).channels.toNat - c - 1, by omega⟩
    obtain ⟨ofs', hreach⟩ := chanLoop_reach w outFilePath (w.imread inFilePath).split
      (c + (n + 1)) c (n + 1) 0 "" (fun c' _ h => hbefore c' (by omega))
    have himpl : go_impl w inFilePath outFilePath =
        .threw (.runtime_error ("Channel printing error occured. Channel N" ++ toString c
          ++ ", message: " ++ ("Can't work with cv::Mat of type "
            ++ toString ((w.imread inFilePath).split c).type ++ ". Sorry."))) ofs' := by
      simp only [go_impl, hdata, hnn, hopen, if_false, Bool.false_eq_true]
      rw [hn, hreach]
      simp only [Nat.zero_add, chanLoop, printChannel_unsupported _ ofs' hr hc ht]
    refine ⟨_, _, ofs', himpl, ?_, contains_end _ _, contains_mid _ _ _, ?_⟩
    · have h := contains_mid "Channel printing error occured. Channel N" (toString c)
        (", message: " ++ ("Can't work with cv::Mat of type "
          ++ toString ((w.imread inFilePath).split c).type ++ ". Sorry."))
      simpa only [String.append_assoc] using h
    · refine ⟨_, ?_, ?_, contains_end ("Exception occured with input file " ++ inFilePath
        ++ " with message ") _⟩
      · simp only [IntegralImage.go, himpl, Exc.what]
      · have h := contains_mid "Exception occured with input file " inFilePath
          (" with message " ++
            ("Channel printing error occured. Channel N" ++ toString c ++ ", message: " ++
              ("Can't work with cv::Mat of type "
                ++ toString ((w.imread inFilePath).split c).type ++ ". Sorry.")))
        simpa only [String.append_assoc] using h

/-- C8, on an image whose second channel has the unknown type 7. -/
theorem C8_unsupported_encoding_witness :
    ∃ msg cause ofs, go_impl badTypeWorld "b.png" "b.png.integral" =
        .threw (.runtime_error msg) ofs ∧
      Contains msg (toString 1) ∧ Contains msg cause ∧
      Contains cause (toString ((badTypeWorld.imread "b.png").split 1).type) ∧
      ∃ msg', IntegralImage.go badTypeWorld "b.png" "b.png.integral" =
          .threw (.runtime_error msg') ofs ∧
        Contains msg' "b.png" ∧ Contains msg' msg :=
  (C8_unsupported_encoding badTypeWorld "b.png" "b.png.integral" 1 rfl (by decide) rfl
    (by
      intro c' hc'
      have h : c' = 0 := by omega
      subst h
      exact ⟨⟨"9.0", by decide⟩, rfl⟩)
    (by decide) (by decide) (by decide)).2.2

/-! ## The scheduler: slices of the file list -/

theorem stepSlices_succ (beg step m : Nat) :
    stepSlices beg step (m + 1) =
      { m_beg := beg, m_end := beg + step } :: stepSlices (beg + step) step m := by
  simp only [stepSlices, List.range_succ_eq_map, List.map_cons, List.map_map, Function.comp_def]
  congr 1
  · simp
  · apply List.map_congr_left
    intro k _
    simp only [Worker.mk.injEq, Nat.succ_eq_add_one]
    constructor <;> ring

theorem launchLoop_shape (t : Threads) (step : Nat) :
    ∀ (n thrNum beg : Nat) (pool : List Worker),
      ∃ m, m ≤ n ∧
        launchLoop t step n thrNum beg pool =
          (beg + m * step, pool ++ stepSlices beg step m, decide (m < n)) ∧
        ((∀ k, t.launchFails k = false) → m = n) := by
  intro n
  induction n with
  | zero =>
    intro thrNum beg pool
    exact ⟨0, le_refl 0, by simp [launchLoop, stepSlices], fun _ => rfl⟩
  | succ n ih =>
    intro thrNum beg pool
    by_cases hf : t.launchFails thrNum = true
    · refine ⟨0, Nat.zero_le _, by simp [launchLoop, hf, stepSlices], ?_⟩
      intro h
      rw [h thrNum] at hf
      exact absurd hf (by simp)
    · obtain ⟨m, hm, hrun, hall⟩ := ih (thrNum + 1) (beg + step)
        (pool ++ [{ m_beg := beg, m_end := beg + step }])
      refine ⟨m + 1, by omega, ?_, fun h => by rw [hall h]⟩
      simp only [launchLoop, hf, hrun, stepSlices_succ]
      simp only [Bool.false_eq_true, if_false, List.append_assoc, List.singleton_append,
        Nat.add_lt_add_iff_right, Prod.mk.injEq, and_true]
      ring

theorem join_stepSlices_paths (files : List String) (step : Nat) :
    ∀ (m beg : Nat),
      ((stepSlices beg step m).map fun s => s.paths files).flatten =
        (files.drop beg).take (m * step) := by
  intro m
  induction m with
  | zero => intro beg; simp [stepSlices]
  | succ m ih =>
    intro beg
    rw [stepSlices_succ, List.map_cons, List.flatten_cons, ih (beg + step)]
    have e : (m + 1) * step = step + m * step := by ring
    rw [e, List.take_add, List.drop_drop]
    simp only [Worker.paths, Nat.add_sub_cancel_left]

theorem stepSlices_bounds (beg step m : Nat) :
    ∀ s ∈ stepSlices beg step m,
      beg ≤ s.m_beg ∧ s.m_end = s.m_beg + step ∧ s.m_end ≤ beg + m * step := by
  intro s hs
  simp only [stepSlices, List.mem_map, List.mem_range] at hs
  obtain ⟨k, hk, rfl⟩ := hs
  refine ⟨by simp, by simp only; ring, ?_⟩
  simp only
  have : (k + 1) * step ≤ m * step := Nat.mul_le_mul_right step (by omega)
  omega

theorem stepSlices_chain (step e : Nat) :
    ∀ (m beg : Nat), List.Chain' (fun a b : Worker => a.m_end = b.m_beg)
      (stepSlices beg step m ++ [{ m_beg := beg + m * step, m_end := e }]) := by
  intro m
  induction m with
  | zero => intro beg; simp [stepSlices]
  | succ m ih =>
    intro beg
    rw [stepSlices_succ, List.cons_append]
    have h := ih (beg + step)
    have e1 : beg + step + m * step = beg + (m + 1) * step := by ring
    rw [e1] at h
    refine List.Chain'.cons' h ?_
    intro y hy
    cases m with
    | zero =>
      simp only [stepSlices, List.range_zero, List.map_nil, List.nil_append, List.head?_cons,
        Option.mem_def, Option.some.injEq] at hy
      subst hy
      simp
    | succ m =>
      rw [stepSlices_succ] at hy
      simp only [List.cons_append, List.head?_cons, Option.mem_def, Option.some.injEq] at hy
      subst hy
      rfl

theorem stepSlices_pairwise (step e : Nat) (m beg : Nat) :
    List.Pairwise (fun a b : Worker => a.m_end ≤ b.m_beg)
      (stepSlices beg step m ++ [{ m_beg := beg + m * step, m_end := e }]) := by
  rw [List.pairwise_append]
  refine ⟨?_, List.pairwise_singleton _ _, ?_⟩
  · simp only [stepSlices]
    rw [List.pairwise_map]
    refine List.Pairwise.imp ?_ (List.pairwise_lt_range m)
    intro a b hab
    simp only
    have : (a + 1) * step ≤ b * step := Nat.mul_le_mul_right step (by omega)
    omega
  · intro a ha b hb
    simp only [List.mem_singleton] at hb
    subst hb
    exact (stepSlices_bounds beg step m a ha).2.2

/-- The run of `doAllWork` in closed form: with `T` the effective thread count,
some number `m ≤ T - 1` of launches succeed (all of them when no launch fails),
the launched slices are the first `m` steps and the calling thread takes the
rest of the list. -/
theorem doAllWork_shape (t : Threads) (files : List String) (request T : Nat) (h1 : 1 ≤ T)
    (hT : T = min (if 0 < request then request else t.hardwareHint) files.length) :
    ∃ m, m ≤ T - 1 ∧
      doAllWork t (files, request) =
        { launched := stepSlices 0 (files.length / T) m,
          inline := { m_beg := m * (files.length / T), m_end := files.length },
          joins := m,
          raised := joinLoop t m 0 (decide (m < T - 1)) } ∧
      ((∀ k, t.launchFails k = false) → m = T - 1) := by
  by_cases hser : request = 1 ∨ (request = 0 ∧ t.hardwareHint < 2) ∨ files.length < 2
  · have hT1 : T = 1 := by
      rcases hser with h | ⟨h, h'⟩ | h
      · subst h; simp at hT; omega
      · subst h; simp at hT; omega
      · omega
    refine ⟨0, Nat.zero_le _, ?_, fun _ => by omega⟩
    simp [doAllWork, hser, stepSlices, joinLoop, hT1]
  · have hthr : min (if request > 1 then request else t.hardwareHint) files.length = T := by
      rw [hT]
      by_cases h0 : 0 < request
      · have : 1 < request := by omega
        simp [h0, this]
      · have : ¬ 1 < request := by omega
        simp [h0, this]
    obtain ⟨m, hm, hrun, hall⟩ := launchLoop_shape t (files.length / T) (T - 1) 0 0 []
    refine ⟨m, hm, ?_, hall⟩
    simp only [doAllWork, hser, if_false, hthr, hrun]
    simp [stepSlices]

theorem steps_le_length (N T m : Nat) (hm : m ≤ T - 1) : m * (N / T) ≤ N := by
  have h1 : m * (N / T) ≤ T * (N / T) := Nat.mul_le_mul_right _ (by omega)
  have h2 : T * (N / T) ≤ N := Nat.mul_div_le N T
  omega

/-! ## Claims on the partition of the file list -/

/-- C9.  For a file list of size `N` and an effective thread count `T` with
`1 ≤ T ≤ N` (requested, or taken from the hardware hint, and clamped to `N`),
the slices `doAllWork` builds are contiguous (each begins where the previous one
ends), disjoint (each ends no later than every later one begins), lie inside
the list, and the paths of the slices concatenated in slice order are the
original list; this holds whichever launches fail.  When no launch fails the
slices are the `T - 1` slices of `N / T` files followed by the slice that runs
to the end of the list. -/
theorem C9_partition_complete (t : Threads) (files : List String) (request T : Nat)
    (h1 : 1 ≤ T)
    (hT : T = min (if 0 < request then request else t.hardwareHint) files.length) :
    List.Chain' (fun a b : Worker => a.m_end = b.m_beg) (doAllWork t (files, request)).slices ∧
    List.Pairwise (fun a b : Worker => a.m_end ≤ b.m_beg) (doAllWork t (files, request)).slices ∧
    (∀ s ∈ (doAllWork t (files, request)).slices, s.m_beg ≤ s.m_end ∧ s.m_end ≤ files.length) ∧
    ((doAllWork t (files, request)).slices.map fun s => s.paths files).flatten = files ∧
    ((∀ k, t.launchFails k = false) →
      (doAllWork t (files, request)).slices =
        ((List.range (T - 1)).map fun k =>
          ({ m_beg := k * (files.length / T), m_end := (k + 1) * (files.length / T) } : Worker))
        ++ [{ m_beg := (T - 1) * (files.length / T), m_end := files.length }]) := by
  obtain ⟨m, hm, hrun, hall⟩ := doAllWork_shape t files request T h1 hT
  have hle := steps_le_length files.length T m hm
  have hsl : (doAllWork t (files, request)).slices =
      stepSlices 0 (files.length / T) m
        ++ [{ m_beg := 0 + m * (files.length / T), m_end := files.length }] := by
    rw [hrun]; simp [WorkLog.slices]
  refine ⟨?_, ?_, ?_, ?_, ?_⟩
  · rw [hsl]; exact stepSlices_chain _ _ m 0
  · rw [hsl]; exact stepSlices_pairwise _ _ m 0
  · rw [hsl]
    intro s hs
    rcases List.mem_append.mp hs with h | h
    · have hb := stepSlices_bounds 0 (files.length / T) m s h
      generalize files.length / T = step at hb hle
      omega
    · simp only [List.mem_singleton] at h
      subst h
      simp only
      generalize files.length / T = step at hle
      omega
  · have htail : List.take (files.length - m * (files.length / T))
        (List.drop (m * (files.length / T)) files) =
          List.drop (m * (files.length / T)) files := by
      apply List.take_of_length_le
      simp
    rw [hsl, List.map_append, List.flatten_append, join_stepSlices_paths]
    simp only [List.drop_zero, List.map_cons, List.map_nil, List.flatten_cons, List.flatten_nil,
      List.append_nil, Worker.paths, Nat.zero_add]
    rw [htail, List.take_append_drop]
  · intro hno
    rw [hsl, hall hno]
    simp [stepSlices]

/-- C9, on ten files with three requested threads: slices `[0,3)`, `[3,6)` and
`[6,10)`. -/
theorem C9_partition_complete_witness :
    (doAllWork sampleThreads (sampleFiles, 3)).slices =
        [{ m_beg := 0, m_end := 3 }, { m_beg := 3, m_end := 6 }, { m_beg := 6, m_end := 10 }] ∧
      ((doAllWork sampleThreads (sampleFiles, 3)).slices.map fun s =>
        s.paths sampleFiles).flatten = sampleFiles :=
  ⟨by decide,
    (C9_partition_complete sampleThreads sampleFiles 3 3 (by decide) (by decide)).2.2.2.1⟩

/-- C10.  In the parallel branch of `doAllWork` with `N` files and `T` effective
threads, when every launch succeeds, `T - 1` slices are launched, each holds
exactly `step = N / T` files, and the final slice holds `N - step * (T - 1)`
files, which is at least `step`. -/
theorem C10_slice_sizes (t : Threads) (files : List String) (request T : Nat)
    (hpar : ¬ (request = 1 ∨ (request = 0 ∧ t.hardwareHint < 2) ∨ files.length < 2))
    (hT : T = min (if 1 < request then request else t.hardwareHint) files.length)
    (hno : ∀ k, t.launchFails k = false) :
    (doAllWork t (files, request)).launched.length = T - 1 ∧
    (∀ wk ∈ (doAllWork t (files, request)).launched,
      (wk.paths files).length = files.length / T) ∧
    ((doAllWork t (files, request)).inline.paths files).length =
      files.length - (files.length / T) * (T - 1) ∧
    files.length / T ≤ files.length - (files.length / T) * (T - 1) := by
  have hT' : T = min (if 0 < request then request else t.hardwareHint) files.length := by
    rw [hT]
    by_cases h0 : 0 < request
    · have : 1 < request := by omega
      simp [h0, this]
    · have : ¬ 1 < request := by omega
      simp [h0, this]
  have h2 : 2 ≤ T := by
    rw [hT]
    by_cases h0 : 1 < request
    · simp only [h0, if_true]; omega
    · simp only [h0, if_false]; omega
  obtain ⟨m, hm, hrun, hall⟩ := doAllWork_shape t files request T (by omega) hT'
  have hmT := hall hno
  subst hmT
  have hfull : T * (files.length / T) ≤ files.length := Nat.mul_div_le _ _
  rw [hrun]
  clear hrun hall hT hT' hpar
  generalize files.length / T = step at hfull ⊢
  have hsplit : T * step = (T - 1) * step + step := by
    have e : T = (T - 1) + 1 := by omega
    nth_rewrite 1 [e]
    ring
  have hcomm : step * (T - 1) = (T - 1) * step := Nat.mul_comm _ _
  refine ⟨by simp [stepSlices], ?_, ?_, by omega⟩
  · intro wk hwk
    have hb := stepSlices_bounds 0 step (T - 1) wk hwk
    simp only [Worker.paths, List.length_take, List.length_drop]
    omega
  · simp only [Worker.paths, List.length_take, List.length_drop]
    omega

/-- C10, on ten files with the thread count left to the hint of four: three
slices of two files and a final slice of four. -/
theorem C10_slice_sizes_witness :
    (doAllWork sampleThreads (sampleFiles, 0)).launched.length = 4 - 1 ∧
    (∀ wk ∈ (doAllWork sampleThreads (sampleFiles, 0)).launched,
      (wk.paths sampleFiles).length = sampleFiles.length / 4) ∧
    ((doAllWork sampleThreads (sampleFiles, 0)).inline.paths sampleFiles).length =
      sampleFiles.length - (sampleFiles.length / 4) * (4 - 1) ∧
    sampleFiles.length / 4 ≤ sampleFiles.length - (sampleFiles.length / 4) * (4 - 1) :=
  C10_slice_sizes sampleThreads sampleFiles 0 4 (by decide) (by decide) (fun _ => rfl)

/-! ## The previous-row buffer: invariant and bounds -/

/-- C16 (code defect).  The claim gives the previous-row buffer the length `C`.
The code creates it with `matRows` entries; on the plane of three rows and five
columns the first row of the scan, run on the three-entry buffer of the code,
leaves its bounds, while on a five-entry buffer it would stay inside; the whole
run is undefined behaviour. -/
theorem C16_buffer_has_row_length :
    colLoop ElemGetter.getUShort (constPlane 3 5 CV_16U 2) 5 0 5 0
        { ofs := "", prevRow := List.replicate 3 0, rowSum := 0 } = none ∧
      (colLoop ElemGetter.getUShort (constPlane 3 5 CV_16U 2) 5 0 5 0
        { ofs := "", prevRow := List.replicate 5 0, rowSum := 0 }).isSome = true ∧
      printChannel (constPlane 3 5 CV_16U 2) "" = .undefinedBehaviour := by
  decide

/-- C19.  `printChannel` fails exactly on a negative row or column count or an
unsupported encoding, always with a `ChannelPrintError`, and whenever it fails
the output stream holds what it held before the call: the getter is chosen
before the first value is written. -/
theorem C19_failure_writes_nothing (mat : Mat) (ofs : String) :
    ((mat.rows < 0 ∨ mat.cols < 0 ∨ ¬ supportedType mat.type) →
      ∃ msg, printChannel mat ofs = .threw (.ChannelPrintError msg) ofs) ∧
    (∀ e ofs', printChannel mat ofs = .threw e ofs' →
      ofs' = ofs ∧ (∃ msg, e = .ChannelPrintError msg) ∧
        (mat.rows < 0 ∨ mat.cols < 0 ∨ ¬ supportedType mat.type)) := by
  constructor
  · intro h
    by_cases hneg : mat.rows < 0 ∨ mat.cols < 0
    · exact ⟨"Row/col count is wrong. Sorry.", by simp [printChannel, hneg]⟩
    · have ht : ¬ supportedType mat.type := by
        rcases h with h | h | h
        · exact absurd (Or.inl h) hneg
        · exact absurd (Or.inr h) hneg
        · exact h
      exact ⟨_, printChannel_unsupported mat ofs (by omega) (by omega) ht⟩
  · intro e ofs' h
    by_cases hneg : mat.rows < 0 ∨ mat.cols < 0
    · simp only [printChannel, hneg, if_true, Run.threw.injEq] at h
      refine ⟨h.2.symm, ⟨_, h.1.symm⟩, ?_⟩
      rcases hneg with h1 | h1
      · exact Or.inl h1
      · exact Or.inr (Or.inl h1)
    · by_cases ht : supportedType mat.type
      · exfalso
        obtain ⟨getter, hget⟩ := chooseGetter_ok_of_supported ht
        simp only [printChannel, hneg, if_false, hget] at h
        split at h <;> simp at h
      · rw [printChannel_unsupported mat ofs (by omega) (by omega) ht] at h
        simp only [Run.threw.injEq] at h
        exact ⟨h.2.symm, ⟨_, h.1.symm⟩, Or.inr (Or.inr ht)⟩

/-- C19, on a plane with a negative column count and on a plane of the unknown
type 9, each printed to a stream that already holds text. -/
theorem C19_failure_writes_nothing_witness :
    (∃ msg, printChannel (constPlane 2 (-3) CV_8U 1) "0.0\n\n" =
        .threw (.ChannelPrintError msg) "0.0\n\n") ∧
      (∃ msg, printChannel (constPlane 2 2 9 1) "0.0\n\n" =
        .threw (.ChannelPrintError msg) "0.0\n\n") :=
  ⟨(C19_failure_writes_nothing (constPlane 2 (-3) CV_8U 1) "0.0\n\n").1
      (Or.inr (Or.inl (by decide))),
    (C19_failure_writes_nothing (constPlane 2 2 9 1) "0.0\n\n").1
      (Or.inr (Or.inr (by decide)))⟩

theorem launchLoop_trace (t : Threads) (step : Nat) :
    ∀ (n thrNum beg : Nat) (pool : List Worker),
      ∃ m, m ≤ n ∧
        launchLoop t step n thrNum beg pool =
          (beg + m * step, pool ++ stepSlices beg step m, decide (m < n)) ∧
        launchTrace t step n thrNum beg =
          ((List.range m).map fun k =>
            ThreadEvent.launched (thrNum + k)
              { m_beg := beg + k * step, m_end := beg + (k + 1) * step })
          ++ (if m < n then [ThreadEvent.launchFailed (thrNum + m)] else []) ∧
        (∀ k, k < m → t.launchFails (thrNum + k) = false) ∧
        (m < n → t.launchFails (thrNum + m) = true) := by
  intro n
  induction n with
  | zero =>
    intro thrNum beg pool
    exact ⟨0, le_refl 0, by simp [launchLoop, stepSlices], by simp [launchTrace],
      fun k hk => absurd hk (by omega), fun h => absurd h (by omega)⟩
  | succ n ih =>
    intro thrNum beg pool
    by_cases hf : t.launchFails thrNum = true
    · exact ⟨0, Nat.zero_le _, by simp [launchLoop, hf, stepSlices], by simp [launchTrace, hf],
        fun k hk => absurd hk (by omega), fun _ => by simpa using hf⟩
    · obtain ⟨m, hm, hrun, htr, hok, hbad⟩ := ih (thrNum + 1) (beg + step)
        (pool ++ [{ m_beg := beg, m_end := beg + step }])
      have hf' : t.launchFails thrNum = false := by simpa using hf
      refine ⟨m + 1, by omega, ?_, ?_, ?_, ?_⟩
      · simp only [launchLoop, hf, hrun, stepSlices_succ]
        simp only [Bool.false_eq_true, if_false, List.append_assoc, List.singleton_append,
          Nat.add_lt_add_iff_right, Prod.mk.injEq, and_true]
        ring
      · simp only [launchTrace, hf', Bool.false_eq_true, if_false, htr, List.range_succ_eq_map,
          List.map_cons, List.map_map, Function.comp_def, List.cons_append,
          Nat.add_lt_add_iff_right]
        congr 1
        · simp
        · congr 1
          · apply List.map_congr_left
            intro k _
            simp only [ThreadEvent.launched.injEq, Worker.mk.injEq, Nat.succ_eq_add_one]
            refine ⟨by omega, by ring, by ring⟩
          · have e : thrNum + 1 + m = thrNum + (m + 1) := by omega
            rw [e]
      · intro k hk
        cases k with
        | zero => simpa using hf'
        | succ k =>
          have := hok k (by omega)
          have e : thrNum + 1 + k = thrNum + (k + 1) := by omega
          rwa [e] at this
      · intro hlt
        have := hbad (by omega)
        have e : thrNum + 1 + m = thrNum + (m + 1) := by omega
        rwa [e] at this

theorem joinLoop_eq (t : Threads) :
    ∀ (n k : Nat) (err : Bool),
      joinLoop t n k err = (err || (List.range n).any fun j => t.joinFails (k + j)) := by
  intro n
  induction n with
  | zero => intro k err; simp [joinLoop]
  | succ n ih =>
    intro k err
    simp only [joinLoop, ih, List.range_succ_eq_map, List.any_cons, List.any_map,
      Function.comp_def, Nat.add_zero, Bool.or_assoc]
    have e : (fun j => t.joinFails (k + 1 + j)) = fun x : Nat => t.joinFails (k + x.succ) := by
      funext j
      congr 1
      simp only [Nat.succ_eq_add_one]
      omega
    rw [e]

theorem joinTrace_eq (t : Threads) :
    ∀ (n k : Nat),
      joinTrace t n k = (List.range n).map fun j =>
        if t.joinFails (k + j) then ThreadEvent.joinFailed (k + j) else ThreadEvent.joined (k + j) := by
  intro n
  induction n with
  | zero => intro k; simp [joinTrace]
  | succ n ih =>
    intro k
    simp only [joinTrace, ih, List.range_succ_eq_map, List.map_cons, List.map_map,
      Function.comp_def, Nat.add_zero]
    congr 1
    apply List.map_congr_left
    intro j _
    have e : k + 1 + j = k + j.succ := by simp only [Nat.succ_eq_add_one]; omega
    rw [e]

theorem parallel_thrCount (hint request N : Nat)
    (hpar : ¬ (request = 1 ∨ (request = 0 ∧ hint < 2) ∨ N < 2)) :
    min (if 1 < request then request else hint) N = min (if 0 < request then request else hint) N ∧
      2 ≤ min (if 1 < request then request else hint) N ∧
      min (if 1 < request then request else hint) N ≤ N := by
  by_cases h0 : 0 < request
  · have h1 : 1 < request := by omega
    simp only [h0, h1, if_true]
    exact ⟨trivial, Nat.le_min.mpr ⟨by omega, by omega⟩, Nat.min_le_right _ _⟩
  · have h1 : ¬ 1 < request := by omega
    simp only [h0, h1, if_false]
    exact ⟨trivial, Nat.le_min.mpr ⟨by omega, by omega⟩, Nat.min_le_right _ _⟩

/-- The operations of the parallel branch in closed form: launches `0 .. m - 1`
succeed, launch `m` fails when `m < T - 1` and ends the launching, the calling
thread takes the rest of the list, the join of every launched thread is
attempted, and the `throw` statement is reached exactly when the launch or some
join failed. -/
theorem doAllWorkTrace_shape (t : Threads) (files : List String) (request T : Nat)
    (hpar : ¬ (request = 1 ∨ (request = 0 ∧ t.hardwareHint < 2) ∨ files.length < 2))
    (hT : T = min (if 1 < request then request else t.hardwareHint) files.length) :
    ∃ m, m ≤ T - 1 ∧
      (∀ k, k < m → t.launchFails k = false) ∧
      (m < T - 1 → t.launchFails m = true) ∧
      doAllWork t (files, request) =
        { launched := stepSlices 0 (files.length / T) m,
          inline := { m_beg := m * (files.length / T), m_end := files.length },
          joins := m,
          raised := (decide (m < T - 1) || (List.range m).any fun j => t.joinFails j) } ∧
      doAllWorkTrace t (files, request) =
        ((List.range m).map fun k =>
          ThreadEvent.launched k
            { m_beg := k * (files.length / T), m_end := (k + 1) * (files.length / T) })
        ++ (if m < T - 1 then [ThreadEvent.launchFailed m] else [])
        ++ [ThreadEvent.ranInline { m_beg := m * (files.length / T), m_end := files.length }]
        ++ ((List.range m).map fun j =>
          if t.joinFails j then ThreadEvent.joinFailed j else ThreadEvent.joined j)
        ++ (if (decide (m < T - 1) || (List.range m).any fun j => t.joinFails j) = true
            then [ThreadEvent.raisedError] else []) := by
  obtain ⟨m, hm, hrun, htr, hok, hbad⟩ := launchLoop_trace t (files.length / T) (T - 1) 0 0 []
  refine ⟨m, hm, ?_, ?_, ?_, ?_⟩
  · intro k hk
    simpa using hok k hk
  · intro h
    simpa using hbad h
  · simp only [doAllWork, hpar, if_false, gt_iff_lt, ← hT, hrun, joinLoop_eq]
    simp [stepSlices]
  · simp only [doAllWorkTrace, hpar, if_false, gt_iff_lt, ← hT, hrun, htr, joinLoop_eq,
      joinTrace_eq]
    simp [stepSlices]

/-! ## Claims on the decision rule and the failure policy of doAllWork -/

/-- C17.  In the parallel branch of `doAllWork` the thread count computed by
the code, `min(request > 1 ? request : hint, N)`, equals the specified
`min(request > 0 ? request : hint, N)`, lies between 2 and `N`, and
`step = N / threadCount` is a division by a positive number with result at
least 1; when no launch fails the code launches `threadCount - 1` slices of
`step` files each. -/
theorem C17_thread_count_bounds (t : Threads) (files : List String) (request : Nat)
    (hpar : ¬ (request = 1 ∨ (request = 0 ∧ t.hardwareHint < 2) ∨ files.length < 2)) :
    min (if 1 < request then request else t.hardwareHint) files.length =
      min (if 0 < request then request else t.hardwareHint) files.length ∧
    2 ≤ min (if 1 < request then request else t.hardwareHint) files.length ∧
    min (if 1 < request then request else t.hardwareHint) files.length ≤ files.length ∧
    1 ≤ files.length / min (if 1 < request then request else t.hardwareHint) files.length ∧
    ((∀ k, t.launchFails k = false) →
      (doAllWork t (files, request)).launched =
        stepSlices 0
          (files.length / min (if 1 < request then request else t.hardwareHint) files.length)
          (min (if 1 < request then request else t.hardwareHint) files.length - 1)) := by
  obtain ⟨heq, h2, hle⟩ := parallel_thrCount t.hardwareHint request files.length hpar
  refine ⟨heq, h2, hle, ?_, ?_⟩
  · exact (Nat.one_le_div_iff (by omega)).mpr hle
  · intro hno
    obtain ⟨m, hm, _, hbad, hrun, _⟩ := doAllWorkTrace_shape t files request _ hpar rfl
    have hmT : m = min (if 1 < request then request else t.hardwareHint) files.length - 1 := by
      by_contra hne
      have := hbad (by omega)
      rw [hno m] at this
      exact absurd this (by simp)
    rw [hrun, ← hmT]

/-- C17, on ten files with the thread count left to a hint of four. -/
theorem C17_thread_count_bounds_witness :
    min (if 1 < 0 then 0 else sampleThreads.hardwareHint) sampleFiles.length =
      min (if 0 < 0 then 0 else sampleThreads.hardwareHint) sampleFiles.length ∧
    2 ≤ min (if 1 < 0 then 0 else sampleThreads.hardwareHint) sampleFiles.length ∧
    min (if 1 < 0 then 0 else sampleThreads.hardwareHint) sampleFiles.length
      ≤ sampleFiles.length ∧
    1 ≤ sampleFiles.length /
      min (if 1 < 0 then 0 else sampleThreads.hardwareHint) sampleFiles.length :=
  have h := C17_thread_count_bounds sampleThreads sampleFiles 0 (by decide)
  ⟨h.1, h.2.1, h.2.2.1, h.2.2.2.1⟩

/-- C18, as stated, fails: with four effective threads and a first launch that
fails, launches 1 and 2 are never attempted; the calling thread takes the whole
list and the error is raised. -/
theorem C18_launch_failure_counterexample :
    doAllWorkTrace firstLaunchFails (sampleFiles, 0) =
      [ThreadEvent.launchFailed 0, ThreadEvent.ranInline { m_beg := 0, m_end := 10 },
        ThreadEvent.raisedError] := by
  decide

/-! ## Worker::operator() -/

theorem Worker.loop_eq (c : Calls)
    (hdef : ∀ p, c.go p (p ++ ".integral") ≠ .undefinedBehaviour) :
    ∀ (paths : List String) (log : WorkerLog),
      Worker.loop c paths log =
        some { calls := log.calls ++ paths.map fun p => (p, p ++ ".integral"),
               cerr := log.cerr ++ paths.filterMap (Worker.diagnostic c) } := by
  intro paths
  induction paths with
  | nil => intro log; simp [Worker.loop]
  | cons p rest ih =>
    intro log
    simp only [Worker.loop, List.map_cons]
    cases hgo : c.go p (p ++ ".integral") with
    | undefinedBehaviour => exact absurd hgo (hdef p)
    | returned =>
      simp only [ih, List.append_assoc, List.singleton_append]
      simp [List.filterMap_cons, Worker.diagnostic, hgo]
    | threwStd typeName what =>
      simp only [ih, List.append_assoc, List.singleton_append]
      simp [List.filterMap_cons, Worker.diagnostic, hgo]
    | threwOther =>
      simp only [ih, List.append_assoc, List.singleton_append]
      simp [List.filterMap_cons, Worker.diagnostic, hgo]

theorem Worker.run_eq (wk : Worker) (c : Calls) (files : List String)
    (hdef : ∀ p, c.go p (p ++ ".integral") ≠ .undefinedBehaviour) :
    wk.run c files =
      some { calls := (wk.paths files).map fun p => (p, p ++ ".integral"),
             cerr := (wk.paths files).filterMap (Worker.diagnostic c) } := by
  simp [Worker.run, Worker.loop_eq c hdef]

theorem runWorkers_eq (c : Calls) (files : List String)
    (hdef : ∀ p, c.go p (p ++ ".integral") ≠ .undefinedBehaviour) :
    ∀ (slices : List Worker),
      runWorkers c files slices =
        some (slices.map fun wk =>
          { calls := (wk.paths files).map fun p => (p, p ++ ".integral"),
            cerr := (wk.paths files).filterMap (Worker.diagnostic c) }) := by
  intro slices
  induction slices with
  | nil => rfl
  | cons wk rest ih => simp [runWorkers, Worker.run_eq wk c files hdef, ih]

/-- C12.  For every slice and every pattern of per-file failures, typed or
untyped, `Worker::operator()` returns normally, having called
`IntegralImage::go` exactly once for each path of its slice, in list order, with
the output path equal to the input path followed by `.integral`; a failure on
one file does not stop the later files, and each failing file leaves exactly its
own diagnostic on `std::cerr`. -/
theorem C12_worker_isolates_failures (wk : Worker) (c : Calls) (files : List String)
    (hdef : ∀ p, c.go p (p ++ ".integral") ≠ .undefinedBehaviour) :
    ∃ log, wk.run c files = some log ∧
      log.calls = (wk.paths files).map (fun p => (p, p ++ ".integral")) ∧
      log.cerr = (wk.paths files).filterMap (Worker.diagnostic c) :=
  ⟨_, Worker.run_eq wk c files hdef, rfl, rfl⟩

/-- C12, on a slice of four files of which the second fails with a typed and
the third with an untyped exception. -/
theorem C12_worker_isolates_failures_witness :
    ∃ log, Worker.run { m_beg := 0, m_end := 4 } mixedCalls ["a.png", "b.png", "c.png", "d.png"]
        = some log ∧
      log.calls = [("a.png", "a.png.integral"), ("b.png", "b.png.integral"),
        ("c.png", "c.png.integral"), ("d.png", "d.png.integral")] ∧
      log.cerr = ["Error occured during computing file b.png. Type of exception is "
          ++ "St13runtime_error, message Couldn't open file\n",
        "Unknown error occured during computing file c.png\n"] := by
  obtain ⟨log, h1, h2, h3⟩ := C12_worker_isolates_failures { m_beg := 0, m_end := 4 } mixedCalls
    ["a.png", "b.png", "c.png", "d.png"]
    (by
      intro p
      simp only [mixedCalls]
      split_ifs <;> simp)
  refine ⟨log, h1, ?_, ?_⟩
  · rw [h2]; decide
  · rw [h3]; decide

/-! ## The aggregate error of doAllWork -/

theorem raised_iff_failure_event (t : Threads) (files : List String) (request : Nat) :
    (doAllWork t (files, request)).raised = true ↔
      ∃ k, ThreadEvent.launchFailed k ∈ doAllWorkTrace t (files, request) ∨
        ThreadEvent.joinFailed k ∈ doAllWorkTrace t (files, request) := by
  by_cases hser : request = 1 ∨ (request = 0 ∧ t.hardwareHint < 2) ∨ files.length < 2
  · simp [doAllWork, doAllWorkTrace, hser]
  · obtain ⟨m, hm, hok, hbad, hrun, htr⟩ := doAllWorkTrace_shape t files request _ hser rfl
    rw [hrun, htr]
    simp only [Bool.or_eq_true, decide_eq_true_eq, List.any_eq_true, List.mem_range,
      List.mem_append, List.mem_map, List.mem_singleton]
    constructor
    · rintro (h | ⟨j, hj, hjf⟩)
      · exact ⟨m, Or.inl (Or.inl (Or.inl (Or.inl (Or.inr (by simp [h])))))⟩
      · exact ⟨j, Or.inr (Or.inl (Or.inr ⟨j, hj, by simp [hjf]⟩))⟩
    · rintro ⟨k, h | h⟩
      · rcases h with (((h | h) | h) | h) | h
        · obtain ⟨_, _, h⟩ := h
          exact absurd h (by simp)
        · left
          by_contra hlt
          simp [hlt] at h
        · exact absurd h (by simp)
        · obtain ⟨j, _, h⟩ := h
          split_ifs at h
        · split_ifs at h <;> simp at h
      · rcases h with (((h | h) | h) | h) | h
        · obtain ⟨_, _, h⟩ := h
          exact absurd h (by simp)
        · split_ifs at h <;> simp at h
        · exact absurd h (by simp)
        · obtain ⟨j, hj, h⟩ := h
          right
          refine ⟨j, hj, ?_⟩
          by_contra hjf
          simp [hjf] at h
        · split_ifs at h <;> simp at h

theorem raised_false_of_no_failure (t : Threads) (files : List String) (request : Nat)
    (hl : ∀ k, t.launchFails k = false) (hj : ∀ k, t.joinFails k = false) :
    (doAllWork t (files, request)).raised = false := by
  by_cases hser : request = 1 ∨ (request = 0 ∧ t.hardwareHint < 2) ∨ files.length < 2
  · simp [doAllWork, hser]
  · obtain ⟨m, hm, hok, hbad, hrun, _⟩ := doAllWorkTrace_shape t files request _ hser rfl
    have hmT : ¬ m < min (if 1 < request then request else t.hardwareHint) files.length - 1 := by
      intro hlt
      have := hbad hlt
      rw [hl m] at this
      exact absurd this (by simp)
    rw [hrun]
    simp [hmT, hj]

/-! ## Command-line parsing -/

theorem getopt_scan (args : List String) :
    (getopt args = .finished ∧ scan args = some []) ∨
    (∃ c a rest, getopt args = .option c a rest ∧ (c = 'i' ∨ c = 't') ∧
      rest.length < args.length ∧
      scan args = (scan rest).map fun opts => (c, a) :: opts) ∨
    ((getopt args = .unknown ∨ ∃ a rest, getopt args = .nonOption a rest) ∧
      scan args = none) := by
  cases args with
  | nil => exact Or.inl ⟨rfl, rfl⟩
  | cons arg rest =>
    by_cases hterm : arg = "--"
    · exact Or.inl ⟨by simp [getopt, hterm], by simp [scan, argKind, hterm]⟩
    · rcases hdata : arg.data with _ | ⟨c0, _ | ⟨c, attached⟩⟩
      · exact Or.inr (Or.inr ⟨Or.inr ⟨arg, rest, by simp [getopt, hterm, hdata]⟩,
          by simp [scan, argKind, hterm, hdata]⟩)
      · refine Or.inr (Or.inr ⟨Or.inr ⟨arg, rest, ?_⟩, ?_⟩)
        · simp only [getopt, hterm, if_false, hdata]
        · simp only [scan, argKind, hterm, if_false, hdata]
      · by_cases hdash : c0 = '-'
        · subst hdash
          by_cases hopt : c = 'i' ∨ c = 't'
          · cases attached with
            | nil =>
              cases rest with
              | nil =>
                exact Or.inr (Or.inr ⟨Or.inl (by simp [getopt, hterm, hdata, hopt]),
                  by simp [scan, argKind, hterm, hdata, hopt]⟩)
              | cons next rest' =>
                exact Or.inr (Or.inl ⟨c, next, rest', by simp [getopt, hterm, hdata, hopt],
                  hopt, by simp only [List.length_cons]; omega,
                  by simp [scan, argKind, hterm, hdata, hopt]⟩)
            | cons a0 as =>
              exact Or.inr (Or.inl ⟨c, String.mk (a0 :: as), rest,
                by simp [getopt, hterm, hdata, hopt], hopt, by simp,
                by simp [scan, argKind, hterm, hdata, hopt]⟩)
          · exact Or.inr (Or.inr ⟨Or.inl (by simp [getopt, hterm, hdata, hopt]),
              by simp [scan, argKind, hterm, hdata, hopt]⟩)
        · refine Or.inr (Or.inr ⟨Or.inr ⟨arg, rest, ?_⟩, ?_⟩)
          · simp only [getopt, hterm, if_false, hdata]
            split
            · rename_i heq
              simp only [List.cons.injEq] at heq
              exact absurd heq.1 hdash
            · rfl
          · simp only [scan, argKind, hterm, if_false, hdata]
            split
            · rename_i heq
              split at heq
              · rename_i heq2
                simp only [List.cons.injEq] at heq2
                exact absurd heq2.1 hdash
              · exact absurd heq (by simp)
            · rename_i heq
              split at heq
              · rename_i heq2
                simp only [List.cons.injEq] at heq2
                exact absurd heq2.1 hdash
              · exact absurd heq (by simp)
            · rename_i heq
              split at heq
              · rename_i heq2
                simp only [List.cons.injEq] at heq2
                exact absurd heq2.1 hdash
              · exact absurd heq (by simp)
            · rfl

theorem isDigit_not_space {c : Char} (h : c.isDigit = true) : isSpace c = false := by
  by_contra hs
  have hs' : isSpace c = true := by simpa using hs
  simp only [isSpace, Bool.or_eq_true, beq_iff_eq] at hs'
  rcases hs' with ((((rfl | rfl) | rfl) | rfl) | rfl) | rfl <;> exact absurd h (by decide)

theorem isDigit_not_sign {c : Char} (h : c.isDigit = true) : c ≠ '-' ∧ c ≠ '+' := by
  constructor <;> (rintro rfl; exact absurd h (by decide))

/-- The function `convertToUInt` once the white space is skipped and the sign is
read: `body` is the text after the sign. -/
theorem convertToUInt_eq (v : String) (neg : Bool) (body : List Char)
    (h : (v.data.dropWhile isSpace = '-' :: body ∧ neg = true) ∨
      (v.data.dropWhile isSpace = '+' :: body ∧ neg = false) ∨
      (v.data.dropWhile isSpace = body ∧ neg = false ∧ body.head? ≠ some '-' ∧
        body.head? ≠ some '+')) :
    convertToUInt v =
      if (body.takeWhile Char.isDigit).isEmpty
          || decide ((if neg then -(digitsValue (body.takeWhile Char.isDigit) : Int)
                else (digitsValue (body.takeWhile Char.isDigit) : Int)) < -2147483648)
          || decide (2147483647 < (if neg then -(digitsValue (body.takeWhile Char.isDigit) : Int)
                else (digitsValue (body.takeWhile Char.isDigit) : Int)))
          || !(body.dropWhile Char.isDigit).isEmpty
      then .error (.UIntConvError "Error while parsing unsigned int.")
      else if (if neg then -(digitsValue (body.takeWhile Char.isDigit) : Int)
                else (digitsValue (body.takeWhile Char.isDigit) : Int)) < 0
      then .error (.UIntConvError "The number can't be negative.")
      else .ok (if neg then -(digitsValue (body.takeWhile Char.isDigit) : Int)
                else (digitsValue (body.takeWhile Char.isDigit) : Int)).toNat := by
  rcases h with ⟨hA, rfl⟩ | ⟨hA, rfl⟩ | ⟨hA, rfl, h1, h2⟩
  · simp only [convertToUInt, hA, List.head?_cons, beq_self_eq_true, if_true, skipSign]
  · simp only [convertToUInt, hA, List.head?_cons, skipSign]
    rfl
  · cases body with
    | nil => simp [convertToUInt, hA, skipSign]
    | cons c r =>
      have hc1 : c ≠ '-' := by simpa using h1
      have hc2 : c ≠ '+' := by simpa using h2
      have hskip : skipSign (c :: r) = c :: r := by
        unfold skipSign
        split
        · rename_i heq
          simp only [List.cons.injEq] at heq
          exact absurd heq.1 hc1
        · rename_i heq
          simp only [List.cons.injEq] at heq
          exact absurd heq.1 hc2
        · rfl
      have hb : (some c == some '-') = false := by simpa using hc1
      simp only [convertToUInt, hA, List.head?_cons, hskip, hb]

theorem convertToUInt_cases (v : String) :
    ∃ (neg : Bool) (body : List Char),
      (v.data.dropWhile isSpace = '-' :: body ∧ neg = true) ∨
      (v.data.dropWhile isSpace = '+' :: body ∧ neg = false) ∨
      (v.data.dropWhile isSpace = body ∧ neg = false ∧ body.head? ≠ some '-' ∧
        body.head? ≠ some '+') := by
  cases hA : v.data.dropWhile isSpace with
  | nil => exact ⟨false, [], Or.inr (Or.inr ⟨rfl, rfl, by simp, by simp⟩)⟩
  | cons c r =>
    by_cases h1 : c = '-'
    · exact ⟨true, r, Or.inl ⟨by rw [h1], rfl⟩⟩
    · by_cases h2 : c = '+'
      · exact ⟨false, r, Or.inr (Or.inl ⟨by rw [h2], rfl⟩)⟩
      · exact ⟨false, c :: r, Or.inr (Or.inr ⟨rfl, rfl, by simpa using h1, by simpa using h2⟩)⟩

theorem guarded_ok_iff {c1 : Bool} {c2 : Prop} [Decidable c2] {e1 e2 : ArgExc} {x n : Nat} :
    (if c1 = true then Except.error e1 else if c2 then Except.error e2 else Except.ok x) =
      (Except.ok n : Except ArgExc Nat) ↔ c1 = false ∧ ¬ c2 ∧ x = n := by
  cases c1 <;> by_cases h : c2 <;> simp [h]

theorem guarded_error {c1 : Bool} {c2 : Prop} [Decidable c2] {e1 e2 e : ArgExc} {x : Nat}
    (h : (if c1 = true then Except.error e1 else if c2 then Except.error e2 else Except.ok x) =
      (Except.error e : Except ArgExc Nat)) : e = e1 ∨ e = e2 := by
  cases c1 <;> by_cases h2 : c2 <;> simp [h2] at h <;> simp [h]

theorem convertToUInt_error (v : String) (e : ArgExc) (h : convertToUInt v = .error e) :
    ∃ w, e = .UIntConvError w := by
  obtain ⟨neg, body, hc⟩ := convertToUInt_cases v
  rw [convertToUInt_eq v neg body hc] at h
  rcases guarded_error h with rfl | rfl
  · exact ⟨_, rfl⟩
  · exact ⟨_, rfl⟩

theorem digits_of_dropWhile_nil {body : List Char} (h : body.dropWhile Char.isDigit = []) :
    body.takeWhile Char.isDigit = body ∧ ∀ c ∈ body, c.isDigit = true := by
  have hall : ∀ c ∈ body, c.isDigit = true := List.dropWhile_eq_nil_iff.mp h
  exact ⟨List.takeWhile_eq_self_iff.mpr hall, hall⟩

/-- The texts `convertToUInt` accepts are the thread counts of the
specification side, with their value. -/
theorem convertToUInt_spec (v : String) (n : Nat) :
    convertToUInt v = .ok n ↔ ValidCount v n := by
  constructor
  · intro hok
    obtain ⟨neg, body, hc⟩ := convertToUInt_cases v
    rw [convertToUInt_eq v neg body hc, guarded_ok_iff] at hok
    obtain ⟨hcond, hnonneg, hn⟩ := hok
    simp only [Bool.or_eq_false_iff, decide_eq_false_iff_not, Bool.not_eq_false',
      List.isEmpty_eq_true, not_lt] at hcond
    obtain ⟨⟨⟨hne, hlo⟩, hhi⟩, hrest⟩ := hcond
    have hne' : body.takeWhile Char.isDigit ≠ [] := by
      intro h0
      rw [h0] at hne
      simp at hne
    obtain ⟨htake, hall⟩ := digits_of_dropWhile_nil hrest
    rw [htake] at hne' hlo hhi hnonneg hn
    have hsplit := (List.takeWhile_append_dropWhile isSpace v.data).symm
    have hws : ∀ c ∈ v.data.takeWhile isSpace, isSpace c = true :=
      fun c hcm => List.mem_takeWhile_imp hcm
    rcases hc with ⟨hA, rfl⟩ | ⟨hA, rfl⟩ | ⟨hA, rfl, _, _⟩
    · simp only [if_true] at hlo hhi hnonneg hn
      have hz : digitsValue body = 0 := by omega
      have hn0 : n = 0 := by rw [← hn, hz]; rfl
      refine ⟨v.data.takeWhile isSpace, ['-'], body, ?_, hws, Or.inr (Or.inr ⟨rfl, hn0⟩),
        hne', hall, by rw [hz, hn0], by omega⟩
      rw [List.append_assoc, List.singleton_append, ← hA]
      exact hsplit
    · simp only [Bool.false_eq_true, if_false] at hlo hhi hnonneg hn
      have hv : digitsValue body = n := by rw [← hn]; simp
      refine ⟨v.data.takeWhile isSpace, ['+'], body, ?_, hws, Or.inr (Or.inl rfl),
        hne', hall, hv, by omega⟩
      rw [List.append_assoc, List.singleton_append, ← hA]
      exact hsplit
    · simp only [Bool.false_eq_true, if_false] at hlo hhi hnonneg hn
      have hv : digitsValue body = n := by rw [← hn]; simp
      refine ⟨v.data.takeWhile isSpace, [], body, ?_, hws, Or.inl rfl,
        hne', hall, hv, by omega⟩
      rw [List.append_nil, ← hA]
      exact hsplit
  · rintro ⟨ws, sign, ds, hdata, hws, hsign, hne, hall, hval, hlt⟩
    obtain ⟨d, ds', rfl⟩ : ∃ d ds', ds = d :: ds' := by
      cases ds with
      | nil => exact absurd rfl hne
      | cons d ds' => exact ⟨d, ds', rfl⟩
    have hd : d.isDigit = true := hall d (by simp)
    have htake : (d :: ds').takeWhile Char.isDigit = d :: ds' :=
      List.takeWhile_eq_self_iff.mpr hall
    have hdrop : (d :: ds').dropWhile Char.isDigit = [] := List.dropWhile_eq_nil_iff.mpr hall
    have hA : v.data.dropWhile isSpace = (sign ++ d :: ds').dropWhile isSpace := by
      rw [hdata, List.append_assoc, List.dropWhile_append_of_pos hws]
    rcases hsign with rfl | rfl | ⟨rfl, hn0⟩
    · have hA' : v.data.dropWhile isSpace = d :: ds' := by
        rw [hA, List.nil_append, List.dropWhile_cons_of_neg (by simp [isDigit_not_space hd])]
      rw [convertToUInt_eq v false (d :: ds')
        (Or.inr (Or.inr ⟨hA', rfl, by simpa using (isDigit_not_sign hd).1,
          by simpa using (isDigit_not_sign hd).2⟩))]
      rw [guarded_ok_iff]
      simp only [htake, hdrop, hval]
      have h1 : ¬ ((n : Int) < -2147483648) := by omega
      have h2 : ¬ (2147483647 < (n : Int)) := by omega
      have h3 : ¬ ((n : Int) < 0) := by omega
      simp [h1, h2, h3]
    · have hA' : v.data.dropWhile isSpace = '+' :: d :: ds' := by
        rw [hA, List.singleton_append, List.dropWhile_cons_of_neg (by decide)]
      rw [convertToUInt_eq v false (d :: ds') (Or.inr (Or.inl ⟨hA', rfl⟩))]
      rw [guarded_ok_iff]
      simp only [htake, hdrop, hval]
      have h1 : ¬ ((n : Int) < -2147483648) := by omega
      have h2 : ¬ (2147483647 < (n : Int)) := by omega
      have h3 : ¬ ((n : Int) < 0) := by omega
      simp [h1, h2, h3]
    · have hA' : v.data.dropWhile isSpace = '-' :: d :: ds' := by
        rw [hA, List.singleton_append, List.dropWhile_cons_of_neg (by decide)]
      rw [convertToUInt_eq v true (d :: ds') (Or.inl ⟨hA', rfl⟩)]
      rw [guarded_ok_iff]
      simp only [htake, hdrop, hval, hn0]
      simp

theorem inputsOf_cons_i (a : String) (opts : List (Char × String)) :
    inputsOf (('i', a) :: opts) = a :: inputsOf opts ∧
      threadsOf (('i', a) :: opts) = threadsOf opts := by
  constructor
  · simp [inputsOf]
  · simp [threadsOf]

theorem inputsOf_cons_t (a : String) (opts : List (Char × String)) :
    inputsOf (('t', a) :: opts) = inputsOf opts ∧
      threadsOf (('t', a) :: opts) = a :: threadsOf opts := by
  constructor
  · simp [inputsOf]
  · simp [threadsOf]

theorem parseLoop_spec :
    ∀ (fuel : Nat) (args paths : List String) (thr : Nat) (met : Bool), args.length < fuel →
      (scan args = none →
        ∃ w, parseLoop fuel args (paths, thr) met = some (.error (.ParseError w))) ∧
      (∀ opts, scan args = some opts →
        (Acceptable paths met opts →
          ∃ n, CountIs thr opts n ∧
            parseLoop fuel args (paths, thr) met = some (.ok (paths ++ inputsOf opts, n))) ∧
        (¬ Acceptable paths met opts →
          ∃ w, parseLoop fuel args (paths, thr) met = some (.error (.ParseError w)))) := by
  intro fuel
  induction fuel with
  | zero => intro args paths thr met h; omega
  | succ fuel ih =>
    intro args paths thr met hlen
    rcases getopt_scan args with ⟨hget, hscan⟩ | ⟨c, a, rest, hget, hc, hrest, hscan⟩ |
      ⟨hget, hscan⟩
    · -- the scan ends here
      refine ⟨fun h => by rw [hscan] at h; exact absurd h (by simp), ?_⟩
      intro opts hopts
      rw [hscan] at hopts
      obtain rfl : [] = opts := Option.some.inj hopts
      constructor
      · rintro ⟨hne, _, _⟩
        have hp : paths ≠ [] := by simpa [inputsOf] using hne
        refine ⟨thr, Or.inl ⟨by simp [threadsOf], rfl⟩, ?_⟩
        simp [parseLoop, hget, hp, inputsOf]
      · intro hbad
        have hp : paths = [] := by
          by_contra hp
          exact hbad ⟨by simpa [inputsOf] using hp, by cases met <;> simp [threadsOf],
            by simp [threadsOf]⟩
        simp [parseLoop, hget, hp]
    · rcases hc with rfl | rfl
      · -- an input file
        have hstep : parseLoop (fuel + 1) args (paths, thr) met =
            parseLoop fuel rest (paths ++ [a], thr) met := by
          simp [parseLoop, hget]
        obtain ⟨ihnone, ihsome⟩ := ih rest (paths ++ [a]) thr met (by omega)
        rw [hstep, hscan]
        constructor
        · intro h
          exact ihnone (by simpa using h)
        · intro opts hopts
          obtain ⟨opts', hopts', rfl⟩ : ∃ opts', scan rest = some opts' ∧
              ('i', a) :: opts' = opts := by simpa using hopts
          obtain ⟨ihgood, ihbad⟩ := ihsome opts' hopts'
          have hacc : Acceptable paths met (('i', a) :: opts') ↔
              Acceptable (paths ++ [a]) met opts' := by
            simp [Acceptable, (inputsOf_cons_i a opts').1, (inputsOf_cons_i a opts').2]
          have hcount : ∀ n, CountIs thr (('i', a) :: opts') n ↔ CountIs thr opts' n := by
            intro n
            simp [CountIs, (inputsOf_cons_i a opts').2]
          constructor
          · intro hgood
            obtain ⟨n, hn, hrun⟩ := ihgood (hacc.mp hgood)
            refine ⟨n, (hcount n).mpr hn, ?_⟩
            rw [hrun, (inputsOf_cons_i a opts').1]
            simp
          · intro hbad
            exact ihbad (fun h => hbad (hacc.mpr h))
      · -- a thread count
        by_cases hmet : met = true
        · have hstep : ∃ w, parseLoop (fuel + 1) args (paths, thr) met =
              some (.error (.ParseError w)) := by simp [parseLoop, hget, hmet]
          refine ⟨fun _ => hstep, fun opts hopts => ⟨?_, fun _ => hstep⟩⟩
          rw [hscan] at hopts
          obtain ⟨opts', _, rfl⟩ : ∃ opts', scan rest = some opts' ∧
              ('t', a) :: opts' = opts := by simpa using hopts
          rintro ⟨_, hcnt, _⟩
          rw [(inputsOf_cons_t a opts').2, hmet] at hcnt
          simp at hcnt
        · have hmet' : met = false := by simpa using hmet
          subst hmet'
          cases hconv : convertToUInt a with
          | error e =>
            have hstep : ∃ w, parseLoop (fuel + 1) args (paths, thr) false =
                some (.error (.ParseError w)) := by simp [parseLoop, hget, hconv]
            refine ⟨fun _ => hstep, fun opts hopts => ⟨?_, fun _ => hstep⟩⟩
            rw [hscan] at hopts
            obtain ⟨opts', _, rfl⟩ : ∃ opts', scan rest = some opts' ∧
                ('t', a) :: opts' = opts := by simpa using hopts
            rintro ⟨_, _, hvalid⟩
            obtain ⟨n, hn⟩ := hvalid a (by rw [(inputsOf_cons_t a opts').2]; simp)
            rw [(convertToUInt_spec a n).mpr hn] at hconv
            exact absurd hconv (by simp)
          | ok v =>
            have hstep : parseLoop (fuel + 1) args (paths, thr) false =
                parseLoop fuel rest (paths, v) true := by
              simp [parseLoop, hget, hconv]
            have hv : ValidCount a v := (convertToUInt_spec a v).mp hconv
            obtain ⟨ihnone, ihsome⟩ := ih rest paths v true (by omega)
            rw [hstep, hscan]
            constructor
            · intro h
              exact ihnone (by simpa using h)
            · intro opts hopts
              obtain ⟨opts', hopts', rfl⟩ : ∃ opts', scan rest = some opts' ∧
                  ('t', a) :: opts' = opts := by simpa using hopts
              obtain ⟨ihgood, ihbad⟩ := ihsome opts' hopts'
              have hacc : Acceptable paths false (('t', a) :: opts') ↔
                  Acceptable paths true opts' := by
                simp only [Acceptable, (inputsOf_cons_t a opts').1, (inputsOf_cons_t a opts').2,
                  List.length_cons, List.mem_cons, forall_eq_or_imp, Bool.false_eq_true,
                  if_false, if_true, Nat.add_zero]
                constructor
                · rintro ⟨h1, h2, _, h4⟩
                  exact ⟨h1, h2, h4⟩
                · rintro ⟨h1, h2, h4⟩
                  exact ⟨h1, h2, ⟨v, hv⟩, h4⟩
              constructor
              · intro hgood
                have hgood' := hacc.mp hgood
                obtain ⟨n, hn, hrun⟩ := ihgood hgood'
                have hempty : threadsOf opts' = [] := by
                  have := hgood'.2.1
                  simp only [if_true] at this
                  exact List.length_eq_zero.mp (by omega)
                have hnv : n = v := by
                  rcases hn with ⟨_, h⟩ | ⟨w, h, _⟩
                  · exact h
                  · rw [hempty] at h
                    exact absurd h (by simp)
                subst hnv
                refine ⟨n, Or.inr ⟨a, by rw [(inputsOf_cons_t a opts').2, hempty], hv⟩, ?_⟩
                rw [hrun, (inputsOf_cons_t a opts').1]
              · intro hbad
                exact ihbad (fun h => hbad (hacc.mpr h))
    · -- an unknown flag, a stray argument or a missing value
      have hstep : ∃ w, parseLoop (fuel + 1) args (paths, thr) met =
          some (.error (.ParseError w)) := by
        rcases hget with hget | ⟨a, rest, hget⟩
        · simp [parseLoop, hget]
        · simp [parseLoop, hget]
      refine ⟨fun _ => hstep, fun opts hopts => ?_⟩
      rw [hscan] at hopts
      exact absurd hopts (by simp)

theorem validCount_unique {v : String} {n n' : Nat} (h : ValidCount v n) (h' : ValidCount v n') :
    n = n' := by
  have e := (convertToUInt_spec v n).mpr h
  rw [(convertToUInt_spec v n').mpr h'] at e
  exact (Except.ok.inj e).symm

theorem not_acceptable_iff (opts : List (Char × String)) :
    ¬ Acceptable [] false opts ↔
      (inputsOf opts = [] ∨ 2 ≤ (threadsOf opts).length ∨
        ∃ v ∈ threadsOf opts, ∀ n, ¬ ValidCount v n) := by
  simp only [Acceptable, List.nil_append, Bool.false_eq_true, if_false, Nat.add_zero]
  constructor
  · intro h
    by_cases h1 : inputsOf opts = []
    · exact Or.inl h1
    · by_cases h2 : 2 ≤ (threadsOf opts).length
      · exact Or.inr (Or.inl h2)
      · right; right
        by_contra h3
        apply h
        refine ⟨h1, by omega, ?_⟩
        intro v hv
        by_contra h4
        exact h3 ⟨v, hv, fun n hn => h4 ⟨n, hn⟩⟩
  · rintro (h | h | ⟨v, hv, h⟩) ⟨h1, h2, h3⟩
    · exact h1 h
    · omega
    · obtain ⟨n, hn⟩ := h3 v hv
      exact h n hn

/-- C15, as stated, fails in two ways: `-t 3000000000` gives a non-negative
integer and is rejected, because the value is read into an `int`; and a stray
positional argument after `--` is ignored, because `--` ends the scan of
`getopt`. -/
theorem C15_parseArgs_counterexample :
    parseArgs ["runner", "-i", "a.jpg", "-t", "3000000000"] =
        some (.error (.ParseError ("Something went wrong while parsing thread count. "
          ++ "Message from parsing function: Error while parsing unsigned int."))) ∧
      parseArgs ["runner", "-i", "a.jpg", "--", "stray"] = some (.ok (["a.jpg"], 0)) :=
  ⟨rfl, rfl⟩

/-- C15 (amended).  `parseArgs` always returns or fails with `ParseError`.  It
fails if and only if the arguments scanned (those after `argv[0]` and before the
first `--`, the rest being ignored) hold an unknown flag, a stray positional
argument or an option missing its value, or hold no `-i` option, or hold `-t`
more than once, or give `-t` a value that is not a non-negative decimal integer
below `2^31`; otherwise it returns the `-i` paths in command-line order together
with the `-t` value, which is 0 when `-t` is absent. -/
theorem C15_parseArgs_spec (argv : List String) :
    ((∃ w, parseArgs argv = some (.error (.ParseError w))) ↔
      (scan argv.tail = none ∨ ∃ opts, scan argv.tail = some opts ∧
        (inputsOf opts = [] ∨ 2 ≤ (threadsOf opts).length ∨
          ∃ v ∈ threadsOf opts, ∀ n, ¬ ValidCount v n))) ∧
    (∀ opts, scan argv.tail = some opts → inputsOf opts ≠ [] →
      (threadsOf opts = [] → parseArgs argv = some (.ok (inputsOf opts, 0))) ∧
      (∀ v n, threadsOf opts = [v] → ValidCount v n →
        parseArgs argv = some (.ok (inputsOf opts, n)))) ∧
    ((∃ w, parseArgs argv = some (.error (.ParseError w))) ∨
      ∃ r, parseArgs argv = some (.ok r)) := by
  have hlen : argv.tail.length < argv.length + 1 := by
    simp only [List.length_tail]; omega
  obtain ⟨hnone, hsome⟩ := parseLoop_spec (argv.length + 1) argv.tail [] 0 false hlen
  have hp : parseArgs argv = parseLoop (argv.length + 1) argv.tail ([], 0) false := rfl
  refine ⟨⟨?_, ?_⟩, ?_, ?_⟩
  · rintro ⟨w, hw⟩
    cases hs : scan argv.tail with
    | none => exact Or.inl rfl
    | some opts =>
      right
      refine ⟨opts, rfl, (not_acceptable_iff opts).mp ?_⟩
      intro hacc
      obtain ⟨n, _, hrun⟩ := (hsome opts hs).1 hacc
      rw [hp, hrun] at hw
      exact absurd hw (by simp)
  · rintro (h | ⟨opts, hs, hbad⟩)
    · rw [hp]; exact hnone h
    · rw [hp]; exact (hsome opts hs).2 ((not_acceptable_iff opts).mpr hbad)
  · intro opts hs hin
    constructor
    · intro hth
      obtain ⟨n, hn, hrun⟩ := (hsome opts hs).1
        ⟨by simpa using hin, by simp [hth], by simp [hth]⟩
      rcases hn with ⟨_, rfl⟩ | ⟨v, hv, _⟩
      · rw [hp, hrun]; simp
      · rw [hth] at hv
        exact absurd hv (by simp)
    · intro v n hth hv
      obtain ⟨n', hn', hrun⟩ := (hsome opts hs).1
        ⟨by simpa using hin, by simp [hth], by
          intro v' hv'
          rw [hth] at hv'
          simp only [List.mem_singleton] at hv'
          exact ⟨n, hv' ▸ hv⟩⟩
      rcases hn' with ⟨he, _⟩ | ⟨v', hv', hvalid⟩
      · rw [hth] at he
        exact absurd he (by simp)
      · rw [hth] at hv'
        simp only [List.cons.injEq, and_true] at hv'
        subst hv'
        rw [hp, hrun, validCount_unique hvalid hv]
        simp
  · cases hs : scan argv.tail with
    | none => exact Or.inl (hp ▸ hnone hs)
    | some opts =>
      by_cases hacc : Acceptable [] false opts
      · obtain ⟨n, _, hrun⟩ := (hsome opts hs).1 hacc
        exact Or.inr ⟨_, hp ▸ hrun⟩
      · exact Or.inl (hp ▸ (hsome opts hs).2 hacc)

/-- C15 (amended), on a command line with two inputs, one of them attached to
its flag, and a thread count of 3. -/
theorem C15_parseArgs_spec_witness :
    parseArgs ["runner", "-i", "a.jpg", "-ib.jpg", "-t", "3"] =
      some (.ok (inputsOf [('i', "a.jpg"), ('i', "b.jpg"), ('t', "3")], 3)) :=
  ((C15_parseArgs_spec ["runner", "-i", "a.jpg", "-ib.jpg", "-t", "3"]).2.1
    [('i', "a.jpg"), ('i', "b.jpg"), ('t', "3")] rfl (by decide)).2 "3" 3 rfl
    ((convertToUInt_spec "3" 3).mp rfl)

/-! ## A whole run of the program -/

theorem Worker.loop_eq_of_mem (c : Calls) :
    ∀ (paths : List String) (log : WorkerLog),
      (∀ p ∈ paths, c.go p (p ++ ".integral") ≠ .undefinedBehaviour) →
      Worker.loop c paths log =
        some { calls := log.calls ++ paths.map fun p => (p, p ++ ".integral"),
               cerr := log.cerr ++ paths.filterMap (Worker.diagnostic c) } := by
  intro paths
  induction paths with
  | nil => intro log _; simp [Worker.loop]
  | cons p rest ih =>
    intro log hdef
    have hrest : ∀ q ∈ rest, c.go q (q ++ ".integral") ≠ .undefinedBehaviour :=
      fun q hq => hdef q (List.mem_cons_of_mem p hq)
    simp only [Worker.loop, List.map_cons]
    cases hgo : c.go p (p ++ ".integral") with
    | undefinedBehaviour => exact absurd hgo (hdef p (List.mem_cons_self p rest))
    | returned =>
      simp only [ih _ hrest, List.append_assoc, List.singleton_append]
      simp [List.filterMap_cons, Worker.diagnostic, hgo]
    | threwStd typeName what =>
      simp only [ih _ hrest, List.append_assoc, List.singleton_append]
      simp [List.filterMap_cons, Worker.diagnostic, hgo]
    | threwOther =>
      simp only [ih _ hrest, List.append_assoc, List.singleton_append]
      simp [List.filterMap_cons, Worker.diagnostic, hgo]

theorem Worker.paths_subset (wk : Worker) (files : List String) :
    ∀ p ∈ wk.paths files, p ∈ files :=
  fun _ hp => List.mem_of_mem_drop (List.mem_of_mem_take hp)

theorem runWorkers_eq_of_mem (c : Calls) (files : List String)
    (hdef : ∀ p ∈ files, c.go p (p ++ ".integral") ≠ .undefinedBehaviour) :
    ∀ (slices : List Worker),
      runWorkers c files slices =
        some (slices.map fun wk =>
          { calls := (wk.paths files).map fun p => (p, p ++ ".integral"),
            cerr := (wk.paths files).filterMap (Worker.diagnostic c) }) := by
  intro slices
  induction slices with
  | nil => rfl
  | cons wk rest ih =>
    have hrun : wk.run c files =
        some { calls := (wk.paths files).map fun p => (p, p ++ ".integral"),
               cerr := (wk.paths files).filterMap (Worker.diagnostic c) } := by
      simp [Worker.run, Worker.loop_eq_of_mem c (wk.paths files) _
        (fun p hp => hdef p (Worker.paths_subset wk files p hp))]
    simp [runWorkers, hrun, ih]

theorem doAllWork_slices_flatten (t : Threads) (files : List String) (request : Nat) :
    ((doAllWork t (files, request)).slices.map fun wk => wk.paths files).flatten = files := by
  by_cases hser : request = 1 ∨ (request = 0 ∧ t.hardwareHint < 2) ∨ files.length < 2
  · simp [doAllWork, hser, WorkLog.slices, Worker.paths]
  · obtain ⟨m, hm, _, _, hrun, _⟩ := doAllWorkTrace_shape t files request _ hser rfl
    have hle := steps_le_length files.length _ m hm
    have htail : ∀ k, List.take (files.length - k) (List.drop k files) = List.drop k files := by
      intro k
      apply List.take_of_length_le
      simp
    rw [hrun]
    simp only [WorkLog.slices, List.map_append, List.flatten_append]
    rw [join_stepSlices_paths]
    simp only [List.drop_zero, List.map_cons, List.map_nil, List.flatten_cons, List.flatten_nil,
      List.append_nil, Worker.paths]
    rw [htail, List.take_append_drop]

theorem filterMap_single {α β : Type} (f : α → Option β) (l : List α) (b : Nat) (x : α) (d : β)
    (hb : l[b]? = some x) (hx : f x = some d)
    (hothers : ∀ i y, l[i]? = some y → i ≠ b → f y = none) :
    l.filterMap f = [d] := by
  have hlt : b < l.length := by
    by_contra h
    rw [List.getElem?_eq_none (by omega)] at hb
    exact absurd hb (by simp)
  have hsplit : l = l.take b ++ x :: l.drop (b + 1) := by
    have h1 := (List.take_append_drop b l).symm
    have h2 : l.drop b = x :: l.drop (b + 1) := by
      rw [List.drop_eq_getElem_cons hlt]
      congr 1
      have := List.getElem?_eq_getElem hlt
      rw [this] at hb
      exact Option.some.inj hb
    rw [h2] at h1
    exact h1
  have hfront : (l.take b).filterMap f = [] := by
    rw [List.filterMap_eq_nil_iff]
    intro y hy
    obtain ⟨i, hi⟩ := List.getElem?_of_mem hy
    have hib : i < b := by
      by_contra h
      rw [List.getElem?_take, if_neg h] at hi
      exact absurd hi (by simp)
    rw [List.getElem?_take, if_pos hib] at hi
    exact hothers i y hi (by omega)
  have hback : (l.drop (b + 1)).filterMap f = [] := by
    rw [List.filterMap_eq_nil_iff]
    intro y hy
    obtain ⟨i, hi⟩ := List.getElem?_of_mem hy
    rw [List.getElem?_drop] at hi
    exact hothers (b + 1 + i) y hi (by omega)
  rw [hsplit, List.filterMap_append, List.filterMap_cons, hx, hfront, hback]
  rfl

theorem diagnostic_names_path (c : Calls) (bad : String)
    (hfail : (∃ typeName what, c.go bad (bad ++ ".integral") = .threwStd typeName what) ∨
      c.go bad (bad ++ ".integral") = .threwOther)
    (hfmt : c.formatFails bad = false) :
    ∃ d, Worker.diagnostic c bad = some d ∧ Contains d bad := by
  rcases hfail with ⟨typeName, what, h⟩ | h
  · refine ⟨Worker.printStdExcErrMsg c typeName what bad, by simp only [Worker.diagnostic, h], ?_⟩
    have hc := contains_mid "Error occured during computing file " bad
      (". Type of exception is " ++ typeName ++ ", message " ++ what ++ "\n")
    simpa [Worker.printStdExcErrMsg, hfmt, String.append_assoc] using hc
  · refine ⟨Worker.printUnkExcErrMsg c bad, by simp only [Worker.diagnostic, h], ?_⟩
    have hc := contains_mid "Unknown error occured during computing file " bad "\n"
    simpa [Worker.printUnkExcErrMsg, hfmt] using hc

/-- C14, as stated, fails: with three paths of which one cannot be read, no
`-t` option and a hardware hint of four, every launch and join succeeding, the
exit code of `main` is 0; the two valid files are computed and the bad path gets
its diagnostic. -/
theorem C14_exit_code_counterexample :
    Runner.main sampleThreads oneBadCalls
        ["runner", "-i", "a.png", "-i", "bad.png", "-i", "c.png"] =
      some (.exited
        { exitCode := 0,
          workers :=
            [{ calls := [("a.png", "a.png.integral")], cerr := [] },
             { calls := [("bad.png", "bad.png.integral")],
               cerr := ["Error occured during computing file bad.png. Type of exception is "
                 ++ "St13runtime_error, message Exception occured with input file bad.png "
                 ++ "with message Couldn't open file\n"] },
             { calls := [("c.png", "c.png.integral")], cerr := [] }],
          cerr := [] }) :=
  rfl

/-- C14 (amended).  For a batch of `N ≥ 2` paths in which exactly one path makes
`IntegralImage::go` fail and the others succeed, run without a thread count
request on a host with a hardware hint of at least 2 where every launch and join
succeeds, `main` returns the exit code 0; the work is spread over
`min(hint, N)` workers, `IntegralImage::go` is called once for every path, so
the `N - 1` valid files are computed, and exactly one diagnostic is written,
which names the bad path. -/
theorem C14_one_bad_file (t : Threads) (c : Calls) (argv files : List String) (b : Nat)
    (bad : String)
    (hparse : parseArgs argv = some (.ok (files, 0)))
    (hN : 2 ≤ files.length) (hhint : 2 ≤ t.hardwareHint)
    (hl : ∀ k, t.launchFails k = false) (hj : ∀ k, t.joinFails k = false)
    (hb : files[b]? = some bad)
    (hfail : (∃ typeName what, c.go bad (bad ++ ".integral") = .threwStd typeName what) ∨
      c.go bad (bad ++ ".integral") = .threwOther)
    (hgood : ∀ i p, files[i]? = some p → i ≠ b → c.go p (p ++ ".integral") = .returned)
    (hfmt : c.formatFails bad = false) :
    ∃ r, Runner.main t c argv = some (.exited r) ∧ r.exitCode = 0 ∧ r.cerr = [] ∧
      r.workers.length = min t.hardwareHint files.length ∧
      (r.workers.map fun log => log.calls).flatten = files.map (fun p => (p, p ++ ".integral")) ∧
      ∃ d, (r.workers.map fun log => log.cerr).flatten = [d] ∧ Contains d bad := by
  have hdef : ∀ p ∈ files, c.go p (p ++ ".integral") ≠ .undefinedBehaviour := by
    intro p hp
    obtain ⟨i, hi⟩ := List.getElem?_of_mem hp
    by_cases hib : i = b
    · subst hib
      rw [hb] at hi
      obtain rfl := Option.some.inj hi
      rcases hfail with ⟨typeName, what, h⟩ | h <;> rw [h] <;> simp
    · rw [hgood i p hi hib]; simp
  have hraised := raised_false_of_no_failure t files 0 hl hj
  have hpar : ¬ ((0 : Nat) = 1 ∨ ((0 : Nat) = 0 ∧ t.hardwareHint < 2) ∨ files.length < 2) := by
    omega
  obtain ⟨m, _, _, hbadl, hshape, _⟩ := doAllWorkTrace_shape t files 0 _ hpar rfl
  have hT : min (if 1 < 0 then 0 else t.hardwareHint) files.length =
      min t.hardwareHint files.length := by simp
  have h2 := (parallel_thrCount t.hardwareHint 0 files.length hpar).2.1
  have hm : m = min t.hardwareHint files.length - 1 := by
    by_contra hne
    have := hbadl (by rw [hT]; omega)
    rw [hl m] at this
    exact absurd this (by simp)
  have hlen : (doAllWork t (files, 0)).slices.length = min t.hardwareHint files.length := by
    rw [hshape, hm]
    simp only [WorkLog.slices, stepSlices, List.length_append, List.length_map, List.length_range,
      List.length_singleton]
    rw [hT] at h2
    omega
  obtain ⟨d, hd, hcont⟩ := diagnostic_names_path c bad hfail hfmt
  have hothers : ∀ i y, files[i]? = some y → i ≠ b → Worker.diagnostic c y = none := by
    intro i y hi hib
    simp [Worker.diagnostic, hgood i y hi hib]
  refine ⟨{ exitCode := 0,
            workers := (doAllWork t (files, 0)).slices.map fun wk =>
              { calls := (wk.paths files).map fun p => (p, p ++ ".integral"),
                cerr := (wk.paths files).filterMap (Worker.diagnostic c) },
            cerr := [] }, ?_, rfl, rfl, ?_, ?_, d, ?_, hcont⟩
  · simp [Runner.main, hparse, doAllWorkRun, doAllWorkEnding, runWorkers_eq_of_mem c files hdef,
      hraised]
  · simp [hlen]
  · simp only [List.map_map, Function.comp_def]
    conv_rhs => rw [← doAllWork_slices_flatten t files 0]
    rw [List.map_flatten, List.map_map]
    simp only [Function.comp_def]
  · simp only [List.map_map, Function.comp_def]
    rw [← filterMap_single (Worker.diagnostic c) files b bad d hb hd hothers]
    conv_rhs => rw [← doAllWork_slices_flatten t files 0]
    rw [List.filterMap_flatten, List.map_map]
    simp only [Function.comp_def]

/-- C14 (amended), on the three paths of the counterexample. -/
theorem C14_one_bad_file_witness :
    ∃ r, Runner.main sampleThreads oneBadCalls
        ["runner", "-i", "a.png", "-i", "bad.png", "-i", "c.png"] = some (.exited r) ∧
      r.exitCode = 0 ∧ r.cerr = [] ∧
      r.workers.length = min sampleThreads.hardwareHint ["a.png", "bad.png", "c.png"].length ∧
      (r.workers.map fun log => log.calls).flatten =
        ["a.png", "bad.png", "c.png"].map (fun p => (p, p ++ ".integral")) ∧
      ∃ d, (r.workers.map fun log => log.cerr).flatten = [d] ∧ Contains d "bad.png" :=
  C14_one_bad_file sampleThreads oneBadCalls
    ["runner", "-i", "a.png", "-i", "bad.png", "-i", "c.png"] ["a.png", "bad.png", "c.png"] 1
    "bad.png" rfl (by decide) (by decide) (fun _ => rfl) (fun _ => rfl) rfl
    (Or.inl ⟨_, _, rfl⟩)
    (by
      intro i p hi hib
      have h : i = 0 ∨ i = 2 ∨ 3 ≤ i := by omega
      rcases h with rfl | rfl | h
      · obtain rfl : "a.png" = p := by simpa using hi
        rfl
      · obtain rfl : "c.png" = p := by simpa using hi
        rfl
      · rw [List.getElem?_eq_none (by simpa using h)] at hi
        exact absurd hi (by simp))
    rfl

theorem launchedWorker_launches (f : Nat → Worker) (l : List Nat) :
    (l.map fun k => ThreadEvent.launched k (f k)).filterMap ThreadEvent.launchedWorker =
      l.map f := by
  induction l with
  | nil => rfl
  | cons k l ih => simp [List.filterMap_cons, ThreadEvent.launchedWorker, ih]

theorem inlineWorker_launches (f : Nat → Worker) (l : List Nat) :
    (l.map fun k => ThreadEvent.launched k (f k)).filterMap ThreadEvent.inlineWorker = [] := by
  induction l with
  | nil => rfl
  | cons k l ih => simp [List.filterMap_cons, ThreadEvent.inlineWorker, ih]

theorem isJoin_launches (f : Nat → Worker) (l : List Nat) :
    (l.map fun k => ThreadEvent.launched k (f k)).filter ThreadEvent.isJoin = [] := by
  induction l with
  | nil => rfl
  | cons k l ih => simp [List.filter_cons, ThreadEvent.isJoin, ih]

theorem workers_of_joins (p : Nat → Bool) (l : List Nat) :
    (l.map fun j => if p j = true then ThreadEvent.joinFailed j else ThreadEvent.joined j).filterMap
        ThreadEvent.launchedWorker = [] ∧
      (l.map fun j =>
        if p j = true then ThreadEvent.joinFailed j else ThreadEvent.joined j).filterMap
          ThreadEvent.inlineWorker = [] ∧
      ((l.map fun j =>
        if p j = true then ThreadEvent.joinFailed j else ThreadEvent.joined j).filter
          ThreadEvent.isJoin).length = l.length := by
  induction l with
  | nil => exact ⟨rfl, rfl, rfl⟩
  | cons k l ih =>
    obtain ⟨h1, h2, h3⟩ := ih
    cases hp : p k <;>
      simp [List.filterMap_cons, List.filter_cons, ThreadEvent.launchedWorker,
        ThreadEvent.inlineWorker, ThreadEvent.isJoin, hp, h1, h2, h3]

theorem workers_of_failed_launch (c : Prop) [Decidable c] (m : Nat) :
    (if c then [ThreadEvent.launchFailed m] else []).filterMap ThreadEvent.launchedWorker = [] ∧
      (if c then [ThreadEvent.launchFailed m] else []).filterMap ThreadEvent.inlineWorker = [] ∧
      (if c then [ThreadEvent.launchFailed m] else []).filter ThreadEvent.isJoin = [] := by
  by_cases h : c <;> simp [h, ThreadEvent.launchedWorker, ThreadEvent.inlineWorker,
    ThreadEvent.isJoin]

theorem workers_of_raise (c : Prop) [Decidable c] :
    (if c then [ThreadEvent.raisedError] else []).filterMap ThreadEvent.launchedWorker = [] ∧
      (if c then [ThreadEvent.raisedError] else []).filterMap ThreadEvent.inlineWorker = [] ∧
      (if c then [ThreadEvent.raisedError] else []).filter ThreadEvent.isJoin = [] := by
  by_cases h : c <;> simp [h, ThreadEvent.launchedWorker, ThreadEvent.inlineWorker,
    ThreadEvent.isJoin]

/-- The list of operations and the outcome recorded by `doAllWork` describe the
same call: same launched workers, same inline worker, one `join` per recorded
join, and the final `throw` exactly when the outcome says so. -/
theorem doAllWorkTrace_agrees (t : Threads) (files : List String) (request : Nat) :
    (doAllWorkTrace t (files, request)).filterMap ThreadEvent.launchedWorker =
      (doAllWork t (files, request)).launched ∧
    (doAllWorkTrace t (files, request)).filterMap ThreadEvent.inlineWorker =
      [(doAllWork t (files, request)).inline] ∧
    ((doAllWorkTrace t (files, request)).filter ThreadEvent.isJoin).length =
      (doAllWork t (files, request)).joins ∧
    (ThreadEvent.raisedError ∈ doAllWorkTrace t (files, request) ↔
      (doAllWork t (files, request)).raised = true) := by
  by_cases hser : request = 1 ∨ (request = 0 ∧ t.hardwareHint < 2) ∨ files.length < 2
  · simp [doAllWork, doAllWorkTrace, hser, ThreadEvent.launchedWorker,
      ThreadEvent.inlineWorker, ThreadEvent.isJoin]
  · obtain ⟨m, hm, hok, hbad, hrun, htr⟩ := doAllWorkTrace_shape t files request _ hser rfl
    rw [hrun, htr]
    generalize min (if 1 < request then request else t.hardwareHint) files.length = T
    generalize files.length / T = step
    have hw := workers_of_joins t.joinFails (List.range m)
    have hf := workers_of_failed_launch (m < T - 1) m
    have hr := workers_of_raise
      ((decide (m < T - 1) || (List.range m).any fun j => t.joinFails j) = true)
    refine ⟨?_, ?_, ?_, ?_⟩
    · simp only [List.filterMap_append, launchedWorker_launches, hw.1, hf.1, hr.1,
        List.append_nil, stepSlices, Nat.zero_add]
      simp [ThreadEvent.launchedWorker]
    · simp only [List.filterMap_append, inlineWorker_launches, hw.2.1, hf.2.1, hr.2.1,
        List.append_nil, List.nil_append]
      simp [ThreadEvent.inlineWorker]
    · simp only [List.filter_append, isJoin_launches, hf.2.2, hr.2.2, List.append_nil,
        List.nil_append, List.length_append, hw.2.2, List.length_range]
      simp [ThreadEvent.isJoin]
    · simp only [List.mem_append, List.mem_map, List.mem_singleton]
      constructor
      · rintro ((((h | h) | h) | h) | h)
        · obtain ⟨_, _, h⟩ := h
          exact absurd h (by simp)
        · split_ifs at h <;> simp at h
        · exact absurd h (by simp)
        · obtain ⟨j, _, h⟩ := h
          split_ifs at h
        · by_contra hr'
          simp [hr'] at h
      · intro h
        right
        simp [h]

/-! ## A failing launch -/

theorem stepSlices_cover_count (step i : Nat) :
    ∀ (m beg : Nat),
      ((stepSlices beg step m).filter fun wk => wk.covers i).length =
        if beg ≤ i ∧ i < beg + m * step then 1 else 0 := by
  intro m
  induction m with
  | zero =>
    intro beg
    have h : ¬ (beg ≤ i ∧ i < beg + 0 * step) := by omega
    rw [if_neg h]
    simp [stepSlices]
  | succ m ih =>
    intro beg
    rw [stepSlices_succ, List.filter_cons]
    have e : beg + (m + 1) * step = beg + step + m * step := by ring
    by_cases hhead : beg ≤ i ∧ i < beg + step
    · have hc : Worker.covers { m_beg := beg, m_end := beg + step } i = true := by
        simp [Worker.covers, hhead]
      have hrest : ¬ (beg + step ≤ i ∧ i < beg + step + m * step) := by omega
      have hall : beg ≤ i ∧ i < beg + (m + 1) * step := by
        have : beg + step ≤ beg + step + m * step := Nat.le_add_right _ _
        omega
      rw [if_pos hc, List.length_cons, ih (beg + step), if_neg hrest, if_pos hall]
    · have hc : ¬ Worker.covers { m_beg := beg, m_end := beg + step } i = true := by
        simp only [Worker.covers, decide_eq_true_eq]
        exact hhead
      rw [if_neg hc, ih (beg + step)]
      by_cases hr : beg + step ≤ i ∧ i < beg + step + m * step
      · have hall : beg ≤ i ∧ i < beg + (m + 1) * step := by omega
        rw [if_pos hr, if_pos hall]
      · have hall : ¬ (beg ≤ i ∧ i < beg + (m + 1) * step) := by omega
        rw [if_neg hr, if_neg hall]

theorem slices_cover_once (files : List String) (step m i : Nat) (hi : i < files.length) :
    ((stepSlices 0 step m ++ [({ m_beg := m * step, m_end := files.length } : Worker)]).filter
      fun wk => wk.covers i).length = 1 := by
  rw [List.filter_append, List.length_append, stepSlices_cover_count]
  by_cases h : i < m * step
  · have h1 : 0 ≤ i ∧ i < 0 + m * step := by omega
    have h2 : ¬ Worker.covers { m_beg := m * step, m_end := files.length } i = true := by
      simp only [Worker.covers, decide_eq_true_eq]
      omega
    simp [List.filter_cons, h2, h]
  · have h1 : ¬ (0 ≤ i ∧ i < 0 + m * step) := by omega
    have h2 : Worker.covers { m_beg := m * step, m_end := files.length } i = true := by
      simp only [Worker.covers, decide_eq_true_eq]
      omega
    simp [List.filter_cons, h2, h]

/-- C21.  In the parallel branch of `doAllWork` with `T` effective threads, if
launch `k < T - 1` is the one that fails (the launches before it succeeded), no
further thread is launched and the `Worker` run on the calling thread covers the
list from the start of slice `k` to its end.  Every position of the file list
lies in the range of exactly one worker, the paths of the workers concatenated
are the file list, and `IntegralImage::go` is called exactly once for every
file; the `k` threads already launched are all joined, and `doAllWork` then
raises its aggregate error: its `throw` statement is reached, and the error
reaches the caller when none of these joins failed. -/
theorem C21_launch_failure (t : Threads) (c : Calls) (files : List String)
    (request T k : Nat)
    (hpar : ¬ (request = 1 ∨ (request = 0 ∧ t.hardwareHint < 2) ∨ files.length < 2))
    (hT : T = min (if 1 < request then request else t.hardwareHint) files.length)
    (hk : k < T - 1)
    (hbefore : ∀ j, j < k → t.launchFails j = false)
    (hfail : t.launchFails k = true)
    (hdef : ∀ p ∈ files, c.go p (p ++ ".integral") ≠ .undefinedBehaviour) :
    doAllWorkTrace t (files, request) =
      ((List.range k).map fun j =>
        ThreadEvent.launched j
          { m_beg := j * (files.length / T), m_end := (j + 1) * (files.length / T) })
      ++ [ThreadEvent.launchFailed k]
      ++ [ThreadEvent.ranInline { m_beg := k * (files.length / T), m_end := files.length }]
      ++ ((List.range k).map fun j =>
        if t.joinFails j then ThreadEvent.joinFailed j else ThreadEvent.joined j)
      ++ [ThreadEvent.raisedError] ∧
    doAllWork t (files, request) =
      { launched := stepSlices 0 (files.length / T) k,
        inline := { m_beg := k * (files.length / T), m_end := files.length },
        joins := k,
        raised := true } ∧
    (∀ i, i < files.length →
      ((doAllWork t (files, request)).slices.filter fun wk => wk.covers i).length = 1) ∧
    ((doAllWork t (files, request)).slices.map fun wk => wk.paths files).flatten = files ∧
    (∃ logs, doAllWorkRun t c (files, request) = some (logs, true) ∧
      (logs.map fun log => log.calls).flatten = files.map (fun p => (p, p ++ ".integral"))) ∧
    ((∀ j, j < k → t.joinFails j = false) →
      doAllWorkEnding t (files, request) =
        .threw (.runtime_error "An error occured during working.")) := by
  obtain ⟨m, hm, hok, hbad, hrun, htr⟩ := doAllWorkTrace_shape t files request T hpar hT
  have hmk : m = k := by
    rcases Nat.lt_trichotomy m k with h | h | h
    · have h1 := hbad (by omega)
      rw [hbefore m h] at h1
      exact absurd h1 (by simp)
    · exact h
    · have h1 := hok k h
      rw [hfail] at h1
      exact absurd h1 (by simp)
  subst hmk
  have hlt : m < T - 1 := hk
  have hraise : (decide (m < T - 1) || (List.range m).any fun j => t.joinFails j) = true := by
    simp [hlt]
  have hrun' : doAllWork t (files, request) =
      { launched := stepSlices 0 (files.length / T) m,
        inline := { m_beg := m * (files.length / T), m_end := files.length },
        joins := m,
        raised := true } := by
    rw [hrun, hraise]
  have hflat := doAllWork_slices_flatten t files request
  refine ⟨?_, hrun', ?_, hflat, ?_, ?_⟩
  rotate_left 3
  · intro hj
    have hany : ((List.range m).any fun j => t.joinFails j) = false := by
      rw [List.any_eq_false]
      intro j hjm
      simp [hj j (List.mem_range.mp hjm)]
    simp [doAllWorkEnding, hrun', joinLoop_eq, hany]
  · rw [htr, if_pos hlt, if_pos hraise]
  · intro i hi
    rw [hrun']
    exact slices_cover_once files (files.length / T) m i hi
  · refine ⟨(doAllWork t (files, request)).slices.map fun wk =>
        { calls := (wk.paths files).map fun p => (p, p ++ ".integral"),
          cerr := (wk.paths files).filterMap (Worker.diagnostic c) }, ?_, ?_⟩
    · have hr : (doAllWork t (files, request)).raised = true := by rw [hrun']
      simp [doAllWorkRun, runWorkers_eq_of_mem c files hdef, hr]
    · simp only [List.map_map, Function.comp_def]
      conv_rhs => rw [← hflat]
      rw [List.map_flatten, List.map_map]
      simp only [Function.comp_def]

/-- C21, on ten files and four effective threads when the second launch fails:
one slice of two files is launched, the calling thread takes the other eight,
the launched thread is joined and the error is raised and reaches the caller. -/
theorem C21_launch_failure_witness :
    doAllWorkTrace secondLaunchFails (sampleFiles, 0) =
      ((List.range 1).map fun j =>
        ThreadEvent.launched j
          { m_beg := j * (sampleFiles.length / 4), m_end := (j + 1) * (sampleFiles.length / 4) })
      ++ [ThreadEvent.launchFailed 1]
      ++ [ThreadEvent.ranInline
            { m_beg := 1 * (sampleFiles.length / 4), m_end := sampleFiles.length }]
      ++ ((List.range 1).map fun j =>
        if secondLaunchFails.joinFails j then ThreadEvent.joinFailed j
        else ThreadEvent.joined j)
      ++ [ThreadEvent.raisedError] ∧
    doAllWork secondLaunchFails (sampleFiles, 0) =
      { launched := stepSlices 0 (sampleFiles.length / 4) 1,
        inline := { m_beg := 1 * (sampleFiles.length / 4), m_end := sampleFiles.length },
        joins := 1,
        raised := true } ∧
    ((doAllWork secondLaunchFails (sampleFiles, 0)).slices.map fun wk =>
      wk.paths sampleFiles).flatten = sampleFiles ∧
    doAllWorkEnding secondLaunchFails (sampleFiles, 0) =
      .threw (.runtime_error "An error occured during working.") :=
  have h := C21_launch_failure secondLaunchFails oneBadCalls sampleFiles 0 4 1 (by decide)
    (by decide) (by decide)
    (by
      intro j hj
      have : j = 0 := by omega
      subst this
      rfl)
    rfl
    (by
      intro p _
      simp only [oneBadCalls]
      split_ifs <;> simp)
  ⟨h.1, h.2.1, h.2.2.2.1, h.2.2.2.2.2 (fun _ _ => rfl)⟩

/-! ## How a call of doAllWork ends -/

theorem doAllWorkEnding_eq (t : Threads) (parseResult : List String × Nat) :
    doAllWorkEnding t parseResult =
      if (doAllWork t parseResult).raised = true then
        if ((List.range (doAllWork t parseResult).joins).any fun j => t.joinFails j) = true
        then Ending.terminated
        else Ending.threw (.runtime_error "An error occured during working.")
      else Ending.returned := by
  simp only [doAllWorkEnding, joinLoop_eq, Bool.false_or, Nat.zero_add]

theorem joinFailed_mem_trace (t : Threads) (files : List String) (request k : Nat) :
    ThreadEvent.joinFailed k ∈ doAllWorkTrace t (files, request) ↔
      k < (doAllWork t (files, request)).joins ∧ t.joinFails k = true := by
  by_cases hser : request = 1 ∨ (request = 0 ∧ t.hardwareHint < 2) ∨ files.length < 2
  · simp [doAllWork, doAllWorkTrace, hser]
  · obtain ⟨m, hm, hok, hbad, hrun, htr⟩ := doAllWorkTrace_shape t files request _ hser rfl
    rw [hrun, htr]
    simp only [List.mem_append, List.mem_map, List.mem_range, List.mem_singleton]
    constructor
    · intro h
      rcases h with (((h | h) | h) | h) | h
      · obtain ⟨_, _, h⟩ := h
        exact absurd h (by simp)
      · split_ifs at h <;> simp at h
      · exact absurd h (by simp)
      · obtain ⟨j, hj, h⟩ := h
        by_cases hjf : t.joinFails j = true
        · rw [if_pos hjf] at h
          injection h with h
          subst h
          exact ⟨hj, hjf⟩
        · rw [if_neg hjf] at h
          exact absurd h (by simp)
      · split_ifs at h <;> simp at h
    · rintro ⟨hk, hf⟩
      exact Or.inl (Or.inr ⟨k, hk, by simp [hf]⟩)

theorem any_joinFails_iff (t : Threads) (files : List String) (request : Nat) :
    ((List.range (doAllWork t (files, request)).joins).any fun j => t.joinFails j) = true ↔
      ∃ k, ThreadEvent.joinFailed k ∈ doAllWorkTrace t (files, request) := by
  simp only [List.any_eq_true, List.mem_range, joinFailed_mem_trace]

theorem ending_terminated_iff (t : Threads) (files : List String) (request : Nat) :
    doAllWorkEnding t (files, request) = .terminated ↔
      ∃ k, ThreadEvent.joinFailed k ∈ doAllWorkTrace t (files, request) := by
  rw [doAllWorkEnding_eq, ← any_joinFails_iff]
  constructor
  · intro h
    split_ifs at h with h1 h2
    exact h2
  · intro h
    have hr : (doAllWork t (files, request)).raised = true := by
      rw [raised_iff_failure_event]
      obtain ⟨k, hk⟩ := (any_joinFails_iff t files request).mp h
      exact ⟨k, Or.inr hk⟩
    rw [if_pos hr, if_pos h]

theorem ending_threw_iff (t : Threads) (files : List String) (request : Nat) (e : Exc) :
    doAllWorkEnding t (files, request) = .threw e ↔
      e = .runtime_error "An error occured during working." ∧
        (∃ k, ThreadEvent.launchFailed k ∈ doAllWorkTrace t (files, request)) ∧
        ¬ ∃ k, ThreadEvent.joinFailed k ∈ doAllWorkTrace t (files, request) := by
  rw [doAllWorkEnding_eq, ← any_joinFails_iff]
  constructor
  · intro h
    split_ifs at h with h1 h2
    injection h with h
    refine ⟨h.symm, ?_, h2⟩
    obtain ⟨k, hk | hk⟩ := (raised_iff_failure_event t files request).mp h1
    · exact ⟨k, hk⟩
    · exact absurd ((any_joinFails_iff t files request).mpr ⟨k, hk⟩) h2
  · rintro ⟨rfl, ⟨k, hk⟩, hj⟩
    have hr : (doAllWork t (files, request)).raised = true := by
      rw [raised_iff_failure_event]
      exact ⟨k, Or.inl hk⟩
    rw [if_pos hr, if_neg hj]

theorem ending_returned_iff (t : Threads) (files : List String) (request : Nat) :
    doAllWorkEnding t (files, request) = .returned ↔
      ¬ ∃ k, ThreadEvent.launchFailed k ∈ doAllWorkTrace t (files, request) ∨
        ThreadEvent.joinFailed k ∈ doAllWorkTrace t (files, request) := by
  rw [doAllWorkEnding_eq, ← raised_iff_failure_event]
  constructor
  · intro h
    split_ifs at h with h1 h2
    exact h1
  · intro h
    rw [if_neg h]

/-! ## Claims on the decision rule, the aggregate error and the failure policy -/

theorem trace_head_launch_attempt (t : Threads) (files : List String) (request T : Nat)
    (hpar : ¬ (request = 1 ∨ (request = 0 ∧ t.hardwareHint < 2) ∨ files.length < 2))
    (hT : T = min (if 1 < request then request else t.hardwareHint) files.length) :
    ∃ rest, doAllWorkTrace t (files, request) =
      (if t.launchFails 0 = true then ThreadEvent.launchFailed 0
       else ThreadEvent.launched 0 { m_beg := 0, m_end := files.length / T }) :: rest := by
  obtain ⟨m, hm, hok, hbad, _, htr⟩ := doAllWorkTrace_shape t files request T hpar hT
  have h2 := (parallel_thrCount t.hardwareHint request files.length hpar).2.1
  rw [← hT] at h2
  rw [htr]
  simp only [List.append_assoc]
  cases m with
  | zero =>
    have hlt : 0 < T - 1 := by omega
    have hf := hbad hlt
    simp only [hf, hlt, if_true, List.range_zero, List.map_nil, List.nil_append,
      List.singleton_append]
    exact ⟨_, rfl⟩
  | succ n =>
    have hf := hok 0 (by omega)
    rw [List.range_succ_eq_map]
    simp only [hf, Bool.false_eq_true, if_false, List.map_cons, List.cons_append, Nat.zero_mul,
      Nat.zero_add, Nat.one_mul]
    exact ⟨_, rfl⟩

theorem first_launch_fails_shape (t : Threads) (files : List String) (request : Nat)
    (hpar : ¬ (request = 1 ∨ (request = 0 ∧ t.hardwareHint < 2) ∨ files.length < 2)) :
    ((doAllWork t (files, request)).launched = [] ↔ t.launchFails 0 = true) ∧
    (t.launchFails 0 = true →
      doAllWork t (files, request) =
        { launched := [], inline := { m_beg := 0, m_end := files.length }, joins := 0,
          raised := true } ∧
      doAllWorkTrace t (files, request) =
        [ThreadEvent.launchFailed 0,
          ThreadEvent.ranInline { m_beg := 0, m_end := files.length },
          ThreadEvent.raisedError]) := by
  obtain ⟨m, hm, hok, hbad, hrun, htr⟩ := doAllWorkTrace_shape t files request _ hpar rfl
  have h2 := (parallel_thrCount t.hardwareHint request files.length hpar).2.1
  cases m with
  | zero =>
    have hlt : 0 < min (if 1 < request then request else t.hardwareHint) files.length - 1 := by
      omega
    have hf := hbad hlt
    refine ⟨?_, ?_⟩
    · rw [hrun]
      simp [stepSlices, hf]
    · intro _
      refine ⟨?_, ?_⟩
      · rw [hrun]
        simp [stepSlices, hlt]
      · rw [htr]
        simp [hlt]
  | succ n =>
    have hf := hok 0 (by omega)
    refine ⟨?_, ?_⟩
    · rw [hrun]
      simp [stepSlices, hf, List.range_succ_eq_map]
    · intro h
      rw [hf] at h
      exact absurd h (by simp)

/-- C11, as stated, fails: with three files, two requested threads and a first
launch that fails, none of the three conditions holds, yet `doAllWork` runs one
`Worker` over the whole list on the calling thread and launches no thread. -/
theorem C11_serial_counterexample :
    ¬ ((2 : Nat) = 1 ∨ ((2 : Nat) = 0 ∧ firstLaunchFails.hardwareHint < 2) ∨
        ["a.png", "b.png", "c.png"].length < 2) ∧
    (doAllWork firstLaunchFails (["a.png", "b.png", "c.png"], 2)).launched = [] ∧
    (doAllWork firstLaunchFails (["a.png", "b.png", "c.png"], 2)).inline =
      { m_beg := 0, m_end := 3 } ∧
    doAllWorkTrace firstLaunchFails (["a.png", "b.png", "c.png"], 2) =
      [ThreadEvent.launchFailed 0, ThreadEvent.ranInline { m_beg := 0, m_end := 3 },
        ThreadEvent.raisedError] := by
  decide

/-- C11 (amended).  When the request is 1, or the request is 0 and the hardware
hint is below 2, or the list has fewer than 2 entries, `doAllWork` runs one
`Worker` over the whole file list on the calling thread, constructs no thread
and returns normally.  Otherwise its first operation is the construction of
thread 0: no construction of a thread is attempted if and only if one of the
three conditions holds.  One `Worker` over the whole list with no thread
launched occurs exactly under the three conditions or when that first
construction fails; in the latter case the aggregate error follows.  With
request 1 and ten files no thread is launched. -/
theorem C11_serial_rule (t : Threads) (files : List String) (request : Nat) :
    ((request = 1 ∨ (request = 0 ∧ t.hardwareHint < 2) ∨ files.length < 2) →
      doAllWorkTrace t (files, request) =
        [ThreadEvent.ranInline { m_beg := 0, m_end := files.length }] ∧
      doAllWork t (files, request) =
        { launched := [], inline := { m_beg := 0, m_end := files.length }, joins := 0,
          raised := false } ∧
      doAllWorkEnding t (files, request) = .returned) ∧
    (¬ (request = 1 ∨ (request = 0 ∧ t.hardwareHint < 2) ∨ files.length < 2) →
      ∃ rest, doAllWorkTrace t (files, request) =
        (if t.launchFails 0 = true then ThreadEvent.launchFailed 0
         else ThreadEvent.launched 0
           { m_beg := 0,
             m_end := files.length /
               min (if 1 < request then request else t.hardwareHint) files.length }) :: rest) ∧
    (((doAllWorkTrace t (files, request)).all fun e => !e.isLaunchAttempt) = true ↔
      (request = 1 ∨ (request = 0 ∧ t.hardwareHint < 2) ∨ files.length < 2)) ∧
    (((doAllWork t (files, request)).launched = [] ∧
        (doAllWork t (files, request)).inline = { m_beg := 0, m_end := files.length }) ↔
      ((request = 1 ∨ (request = 0 ∧ t.hardwareHint < 2) ∨ files.length < 2) ∨
        t.launchFails 0 = true)) ∧
    (¬ (request = 1 ∨ (request = 0 ∧ t.hardwareHint < 2) ∨ files.length < 2) →
      t.launchFails 0 = true →
      doAllWorkTrace t (files, request) =
        [ThreadEvent.launchFailed 0,
          ThreadEvent.ranInline { m_beg := 0, m_end := files.length },
          ThreadEvent.raisedError] ∧
      doAllWorkEnding t (files, request) =
        .threw (.runtime_error "An error occured during working.")) ∧
    doAllWorkTrace t (sampleFiles, 1) =
      [ThreadEvent.ranInline { m_beg := 0, m_end := 10 }] := by
  refine ⟨?_, ?_, ?_, ?_, ?_, ?_⟩
  · intro h
    refine ⟨by simp [doAllWorkTrace, h], by simp [doAllWork, h], ?_⟩
    simp [doAllWorkEnding, doAllWork, h]
  · intro hpar
    exact trace_head_launch_attempt t files request _ hpar rfl
  · constructor
    · intro h
      by_contra hpar
      obtain ⟨rest, hrest⟩ := trace_head_launch_attempt t files request _ hpar rfl
      rw [hrest] at h
      by_cases hf : t.launchFails 0 = true
      · simp [hf, ThreadEvent.isLaunchAttempt] at h
      · simp [hf, ThreadEvent.isLaunchAttempt] at h
    · intro h
      simp [doAllWorkTrace, h, ThreadEvent.isLaunchAttempt]
  · by_cases hser : request = 1 ∨ (request = 0 ∧ t.hardwareHint < 2) ∨ files.length < 2
    · simp [doAllWork, hser]
    · obtain ⟨hiff, hshape⟩ := first_launch_fails_shape t files request hser
      constructor
      · rintro ⟨h, _⟩
        exact Or.inr (hiff.mp h)
      · rintro (h | h)
        · exact absurd h hser
        · rw [(hshape h).1]
          exact ⟨rfl, rfl⟩
  · intro hpar hf
    obtain ⟨_, hshape⟩ := first_launch_fails_shape t files request hpar
    obtain ⟨hrun, htr⟩ := hshape hf
    refine ⟨htr, ?_⟩
    rw [doAllWorkEnding_eq, hrun]
    simp
  · simp [doAllWorkTrace, sampleFiles]

/-- C11 (amended), on three files with two requested threads when the first
launch fails, and on the same files with one requested thread. -/
theorem C11_serial_rule_witness :
    (doAllWorkTrace firstLaunchFails (["a.png", "b.png", "c.png"], 2) =
        [ThreadEvent.launchFailed 0,
          ThreadEvent.ranInline { m_beg := 0, m_end := ["a.png", "b.png", "c.png"].length },
          ThreadEvent.raisedError] ∧
      doAllWorkEnding firstLaunchFails (["a.png", "b.png", "c.png"], 2) =
        .threw (.runtime_error "An error occured during working.")) ∧
    doAllWorkEnding firstLaunchFails (["a.png", "b.png", "c.png"], 1) = .returned :=
  ⟨(C11_serial_rule firstLaunchFails ["a.png", "b.png", "c.png"] 2).2.2.2.2.1 (by decide) rfl,
    ((C11_serial_rule firstLaunchFails ["a.png", "b.png", "c.png"] 1).1 (by decide)).2.2⟩

/-- C13 (code defect).  The claim has `doAllWork` raise its aggregate error when
a join failed.  The code records the failure and reaches its `throw` statement,
but the thread whose `join` threw is still joinable when `thrPool` is
destroyed, so the call ends in `std::terminate` and the process is aborted: no
error reaches `main`.  The rest of the claim holds: when no join fails the
aggregate error is raised exactly when a launch failed, and when every launch
and join succeeds the call returns normally whatever `IntegralImage::go` did on
the individual files.  The failing input is a run of two files on four hardware
threads in which the join of the launched thread throws. -/
theorem C13_failed_join_terminates (t : Threads) (c : Calls) (files : List String)
    (request : Nat) :
    ((∃ k, ThreadEvent.joinFailed k ∈ doAllWorkTrace t (files, request)) →
      (doAllWork t (files, request)).raised = true ∧
      doAllWorkEnding t (files, request) = .terminated ∧
      ∀ argv, parseArgs argv = some (.ok (files, request)) →
        (∀ p ∈ files, c.go p (p ++ ".integral") ≠ .undefinedBehaviour) →
        Runner.main t c argv = some .aborted) ∧
    ((¬ ∃ k, ThreadEvent.joinFailed k ∈ doAllWorkTrace t (files, request)) →
      (doAllWorkEnding t (files, request) =
          .threw (.runtime_error "An error occured during working.") ↔
        ∃ k, ThreadEvent.launchFailed k ∈ doAllWorkTrace t (files, request)) ∧
      (doAllWorkEnding t (files, request) = .returned ↔
        ¬ ∃ k, ThreadEvent.launchFailed k ∈ doAllWorkTrace t (files, request))) ∧
    ((∀ k, t.launchFails k = false) → (∀ k, t.joinFails k = false) →
      (∀ p ∈ files, c.go p (p ++ ".integral") ≠ .undefinedBehaviour) →
      doAllWorkEnding t (files, request) = .returned ∧
      ∃ logs, doAllWorkRun t c (files, request) = some (logs, false)) ∧
    (ThreadEvent.joinFailed 0 ∈ doAllWorkTrace firstJoinFails (["a.png", "b.png"], 0) ∧
      doAllWorkEnding firstJoinFails (["a.png", "b.png"], 0) = .terminated ∧
      doAllWorkEnding firstJoinFails (["a.png", "b.png"], 0) ≠
        .threw (.runtime_error "An error occured during working.")) := by
  refine ⟨?_, ?_, ?_, by decide⟩
  · intro hj
    have hend := (ending_terminated_iff t files request).mpr hj
    refine ⟨?_, hend, ?_⟩
    · rw [raised_iff_failure_event]
      obtain ⟨k, hk⟩ := hj
      exact ⟨k, Or.inr hk⟩
    · intro argv hparse hdef
      simp [Runner.main, hparse, doAllWorkRun, runWorkers_eq_of_mem c files hdef, hend]
  · intro hj
    constructor
    · rw [ending_threw_iff]
      constructor
      · rintro ⟨_, hl, _⟩
        exact hl
      · intro hl
        exact ⟨rfl, hl, hj⟩
    · rw [ending_returned_iff]
      constructor
      · rintro h ⟨k, hk⟩
        exact h ⟨k, Or.inl hk⟩
      · rintro h ⟨k, hk | hk⟩
        · exact h ⟨k, hk⟩
        · exact hj ⟨k, hk⟩
  · intro hl hj hdef
    have hr := raised_false_of_no_failure t files request hl hj
    refine ⟨?_, ?_⟩
    · rw [doAllWorkEnding_eq, hr]
      simp
    · simp [doAllWorkRun, runWorkers_eq_of_mem c files hdef, hr]

/-- C13, at the failing input: `runner -i a.png -i b.png` on four hardware
threads when the join of the launched thread throws ends in `std::terminate`. -/
theorem C13_failed_join_terminates_witness :
    Runner.main firstJoinFails oneBadCalls ["runner", "-i", "a.png", "-i", "b.png"] =
      some .aborted :=
  ((C13_failed_join_terminates firstJoinFails oneBadCalls ["a.png", "b.png"] 0).1
    ⟨0, by decide⟩).2.2 ["runner", "-i", "a.png", "-i", "b.png"] rfl
    (by
      intro p _
      simp only [oneBadCalls]
      split_ifs <;> simp)

/-- C18 (amended).  In the parallel branch of `doAllWork` with `T` effective
threads, a failing launch ends the launching: the launches before it succeeded,
no later launch is attempted and the calling thread takes the rest of the list.
The `join` of every launched thread is attempted, whether or not an earlier
join failed.  When no join fails, a failed launch is only recorded: the
aggregate error is raised after all joins exactly when a launch failed, and
otherwise the call returns. -/
theorem C18_failure_policy (t : Threads) (files : List String) (request T : Nat)
    (hpar : ¬ (request = 1 ∨ (request = 0 ∧ t.hardwareHint < 2) ∨ files.length < 2))
    (hT : T = min (if 1 < request then request else t.hardwareHint) files.length) :
    ∃ m rest, m ≤ T - 1 ∧
      (∀ k, k < m → t.launchFails k = false) ∧
      (m < T - 1 → t.launchFails m = true) ∧
      (doAllWork t (files, request)).launched.length = m ∧
      (doAllWork t (files, request)).joins = m ∧
      doAllWorkTrace t (files, request) =
        ((List.range m).map fun k =>
          ThreadEvent.launched k
            { m_beg := k * (files.length / T), m_end := (k + 1) * (files.length / T) })
        ++ (if m < T - 1 then [ThreadEvent.launchFailed m] else [])
        ++ [ThreadEvent.ranInline { m_beg := m * (files.length / T), m_end := files.length }]
        ++ ((List.range m).map fun j =>
          if t.joinFails j then ThreadEvent.joinFailed j else ThreadEvent.joined j)
        ++ rest ∧
      (∀ e ∈ rest, e = ThreadEvent.raisedError) ∧
      ((∀ j, j < m → t.joinFails j = false) →
        doAllWorkEnding t (files, request) =
          if m < T - 1 then .threw (.runtime_error "An error occured during working.")
          else .returned) := by
  obtain ⟨m, hm, hok, hbad, hrun, htr⟩ := doAllWorkTrace_shape t files request T hpar hT
  refine ⟨m, _, hm, hok, hbad, ?_, ?_, htr, ?_, ?_⟩
  · rw [hrun]; simp [stepSlices]
  · rw [hrun]
  · intro e he
    split_ifs at he
    · simpa using he
    · simp at he
  · intro hj
    have hany : ((List.range m).any fun j => t.joinFails j) = false := by
      rw [List.any_eq_false]
      intro j hjm
      simp [hj j (List.mem_range.mp hjm)]
    rw [doAllWorkEnding_eq, hrun]
    simp only [hany, Bool.or_false, decide_eq_true_eq, Bool.false_eq_true, if_false]

/-- C18 (amended), on ten files and four effective threads when the third
launch and the join of thread 0 fail: two launches, the failed one, the inline
slice, then both joins. -/
theorem C18_failure_policy_witness :
    (doAllWorkTrace thirdLaunchFirstJoinFail (sampleFiles, 0)).filter ThreadEvent.isJoin =
      [ThreadEvent.joinFailed 0, ThreadEvent.joined 1] ∧
    (doAllWorkTrace thirdLaunchFirstJoinFail (sampleFiles, 0)).filter
        ThreadEvent.isLaunchAttempt =
      [ThreadEvent.launched 0 { m_beg := 0, m_end := 2 },
        ThreadEvent.launched 1 { m_beg := 2, m_end := 4 }, ThreadEvent.launchFailed 2] ∧
    ∃ m rest, m ≤ 4 - 1 ∧
      (doAllWork thirdLaunchFirstJoinFail (sampleFiles, 0)).joins = m ∧
      doAllWorkTrace thirdLaunchFirstJoinFail (sampleFiles, 0) =
        ((List.range m).map fun k =>
          ThreadEvent.launched k
            { m_beg := k * (sampleFiles.length / 4), m_end := (k + 1) * (sampleFiles.length / 4) })
        ++ (if m < 4 - 1 then [ThreadEvent.launchFailed m] else [])
        ++ [ThreadEvent.ranInline
              { m_beg := m * (sampleFiles.length / 4), m_end := sampleFiles.length }]
        ++ ((List.range m).map fun j =>
          if thirdLaunchFirstJoinFail.joinFails j then ThreadEvent.joinFailed j
          else ThreadEvent.joined j)
        ++ rest := by
  obtain ⟨m, rest, hm, _, _, _, hj, htr, _⟩ :=
    C18_failure_policy thirdLaunchFirstJoinFail sampleFiles 0 4 (by decide) (by decide)
  exact ⟨by decide, by decide, m, rest, hm, hj, htr⟩
